import Mathlib

/-!
Verification of the PNG codec and background-removal transform of
`scripts/png_tools.py`.

Bytes are modelled as natural numbers (`List Nat`); the places where the
Python code wraps to a byte use an explicit `% 256`.  File I/O is out of
scope: `read_png` consumes the file's byte string directly and
`write_png_rgba` produces the byte string that the Python function writes
to disk.  The two external `zlib` routines (`compress`/`decompress`) and
`crc32` are not code of this repository; the codec is parametrised over
them (`comp`, `decomp`, `crc`), and round-trip theorems hypothesise the
standard inversion property `decomp (comp s) = some s`.
-/

/-- The in-memory image record (`PngImage` dataclass): width, height and a
flat RGBA byte buffer. -/
structure PngImage where
  width : Nat
  height : Nat
  rgba : List Nat
deriving DecidableEq

/-- `PNG_SIGNATURE = b"\x89PNG\r\n\x1a\n"`. -/
def png_signature : List Nat := [137, 80, 78, 71, 13, 10, 26, 10]

/-- ASCII bytes of the chunk tag `IHDR`. -/
def ihdr_tag : List Nat := [73, 72, 68, 82]

/-- ASCII bytes of the chunk tag `IDAT`. -/
def idat_tag : List Nat := [73, 68, 65, 84]

/-- ASCII bytes of the chunk tag `IEND`. -/
def iend_tag : List Nat := [73, 69, 78, 68]

/-- `struct.pack(">I", n)`: four big-endian bytes of `n` (the Python call
requires `n < 2^32`; the theorems hypothesise that bound where it matters). -/
def be32 (n : Nat) : List Nat :=
  [n / 2 ^ 24 % 256, n / 2 ^ 16 % 256, n / 2 ^ 8 % 256, n % 256]

/-- `struct.unpack(">I", l[i:i+4])`: read four bytes big-endian at offset `i`. -/
def read_be32 (l : List Nat) (i : Nat) : Nat :=
  l.getD i 0 * 2 ^ 24 + l.getD (i + 1) 0 * 2 ^ 16 + l.getD (i + 2) 0 * 2 ^ 8 +
    l.getD (i + 3) 0

/-- Errors raised by `_unfilter_scanlines` (both are `ValueError` in Python;
the constructors carry the data interpolated into the message). -/
inductive UnfilterErr where
  /-- `IDAT too small: got {got} expected {expected}`. -/
  | tooSmall (got expected : Nat) : UnfilterErr
  /-- `Unsupported PNG filter: {f}`. -/
  | badFilter (f : Nat) : UnfilterErr
deriving DecidableEq

/-- Errors raised on the `read_png` path (all `ValueError` in Python; the
spec's taxonomy groups them as FormatError / UnsupportedFormat / DecodeError). -/
inductive PngError where
  /-- `Not a PNG (bad signature)`. -/
  | badSignature : PngError
  /-- `PNG missing IHDR`. -/
  | missingIhdr : PngError
  /-- `struct.unpack(">IIBBBBB", ihdr)` on a chunk whose payload is not 13 bytes. -/
  | badIhdrLength : PngError
  /-- `Unsupported PNG compression/filter method`. -/
  | unsupportedCompressionOrFilter : PngError
  /-- `Interlaced PNG not supported`. -/
  | interlacedUnsupported : PngError
  /-- `Only 8-bit PNG supported` (carries the offending depth). -/
  | unsupportedBitDepth (d : Nat) : PngError
  /-- `Unsupported PNG color type: {c}`. -/
  | unsupportedColorType (c : Nat) : PngError
  /-- `zlib.decompress` failure. -/
  | decompressError : PngError
  /-- `IDAT too small: got {got} expected {expected}`. -/
  | idatTooSmall (got expected : Nat) : PngError
  /-- `Unsupported PNG filter: {f}`. -/
  | badFilterType (f : Nat) : PngError
deriving DecidableEq

/-- `_paeth(a, b, c)`: the Paeth predictor as written in the source
(`p = a + b - c` over the integers, absolute differences, tie-breaking
`a`, then `b`, then `c`). -/
def paeth (a b c : Nat) : Nat :=
  let p : Int := (a : Int) + (b : Int) - (c : Int)
  let pa := (p - (a : Int)).natAbs
  let pb := (p - (b : Int)).natAbs
  let pc := (p - (c : Int)).natAbs
  if pa ≤ pb ∧ pa ≤ pc then a
  else if pb ≤ pc then b
  else c

/-- The inner `for x in range(row_bytes)` loop of `_unfilter_scanlines` for a
row with filter type `filt ≠ 0`: `out` is the flat reconstructed output so
far (rows `0..y-1` plus the first `x` bytes of row `y`), `src` the filtered
bytes of row `y`; the first `Nat` argument is the number of remaining loop
iterations (`rowBytes - x`, kept separate so the recursion is structural).
Mirrors the source reads:
`left = out[dst_off + x - bpp] if x >= bpp else 0`,
`up = out[dst_off - row_bytes + x] if y > 0 else 0`,
`up_left = out[dst_off - row_bytes + x - bpp] if (y > 0 and x >= bpp) else 0`
with `dst_off = y * row_bytes`. -/
def unfilter_bytes (filt bpp rowBytes y : Nat) (src : List Nat) :
    Nat → Nat → List Nat → Except UnfilterErr (List Nat)
  | 0, _, out => .ok out
  | rem + 1, x, out =>
    let left := if bpp ≤ x then out.getD (y * rowBytes + x - bpp) 0 else 0
    let up := if 0 < y then out.getD (y * rowBytes - rowBytes + x) 0 else 0
    let up_left :=
      if 0 < y ∧ bpp ≤ x then out.getD (y * rowBytes - rowBytes + x - bpp) 0
      else 0
    let f := src.getD x 0
    match filt with
    | 1 => unfilter_bytes filt bpp rowBytes y src rem (x + 1)
        (out ++ [(f + left) % 256])
    | 2 => unfilter_bytes filt bpp rowBytes y src rem (x + 1)
        (out ++ [(f + up) % 256])
    | 3 => unfilter_bytes filt bpp rowBytes y src rem (x + 1)
        (out ++ [(f + (left + up) / 2) % 256])
    | 4 => unfilter_bytes filt bpp rowBytes y src rem (x + 1)
        (out ++ [(f + paeth left up up_left) % 256])
    | _ => .error (.badFilter filt)

/-- The outer `for y in range(height)` loop of `_unfilter_scanlines`:
each row is one filter byte at `raw[y * stride]` followed by
`row_bytes` filtered bytes; filter type 0 is copied verbatim, other types go
through `unfilter_bytes`.  The first `Nat` argument is the number of rows
still to process (`h - y`). -/
def unfilter_rows (raw : List Nat) (w bpp : Nat) :
    Nat → Nat → List Nat → Except UnfilterErr (List Nat)
  | 0, _, out => .ok out
  | rem + 1, y, out =>
    let rowBytes := w * bpp
    let stride := 1 + rowBytes
    let filt := raw.getD (y * stride) 0
    let src := (raw.drop (y * stride + 1)).take rowBytes
    if filt = 0 then unfilter_rows raw w bpp rem (y + 1) (out ++ src)
    else
      match unfilter_bytes filt bpp rowBytes y src rowBytes 0 out with
      | .ok out2 => unfilter_rows raw w bpp rem (y + 1) out2
      | .error e => .error e

/-- `_unfilter_scanlines(raw, width, height, bpp)`: checks
`len(raw) < height * (1 + width*bpp)` and then reconstructs the rows. -/
def unfilter_scanlines (raw : List Nat) (w h bpp : Nat) :
    Except UnfilterErr (List Nat) :=
  let rowBytes := w * bpp
  let stride := 1 + rowBytes
  let expected := h * stride
  if raw.length < expected then .error (.tooSmall raw.length expected)
  else unfilter_rows raw w bpp h 0 []

/-- `_read_chunks`: the chunk-walking loop starting at byte offset `i`
(`i = 8` after the signature).  Each step reads a 4-byte big-endian length,
a 4-byte type tag and `len` payload bytes, skips the 4 CRC bytes without
validating them, and stops after yielding an `IEND` chunk or when fewer
than 8 bytes remain. -/
def read_chunks_fuel (png : List Nat) :
    Nat → Nat → List (List Nat × List Nat)
  | 0, _ => []
  | fuel + 1, i =>
    if i < png.length then
      if i + 8 > png.length then []
      else
        let clen := read_be32 png i
        let ctype := (png.drop (i + 4)).take 4
        let data := (png.drop (i + 8)).take clen
        if ctype = iend_tag then [(ctype, data)]
        else (ctype, data) :: read_chunks_fuel png fuel (i + 8 + clen + 4)
    else []

/-- `_read_chunks` starting at offset `i`.  Each loop iteration advances `i`
by at least 12 bytes, so `png.length` iterations always suffice; the fuel
argument of `read_chunks_fuel` only makes that termination bound explicit. -/
def read_chunks_from (png : List Nat) (i : Nat) :
    List (List Nat × List Nat) :=
  read_chunks_fuel png (png.length + 1) i

/-- The RGB→RGBA expansion loop of `read_png` (`for i in range(width*height)`:
copy three channel bytes, append alpha 255). -/
def expand_rgb (pixels : List Nat) (n : Nat) : List Nat :=
  (List.range n).foldl
    (fun out i =>
      out ++ [pixels.getD (i * 3) 0, pixels.getD (i * 3 + 1) 0,
        pixels.getD (i * 3 + 2) 0, 255])
    []

/-- `read_png`, with the file's bytes passed directly and `zlib.decompress`
abstracted as `decomp` (returning `none` on a `zlib.error`).  Follows the
source order: signature check, chunk walk collecting the last `IHDR` payload
and concatenating `IDAT` payloads, header field validation, inflation,
scanline reconstruction, RGB expansion. -/
def read_png (decomp : List Nat → Option (List Nat)) (png : List Nat) :
    Except PngError PngImage :=
  if ¬ png_signature.isPrefixOf png then .error .badSignature
  else
    let chunks := read_chunks_from png 8
    match (chunks.filter (fun c => c.1 = ihdr_tag)).getLast? with
    | none => .error .missingIhdr
    | some ihdrC =>
      let ihdr := ihdrC.2
      if ihdr.length = 13 then
        let width := read_be32 ihdr 0
        let height := read_be32 ihdr 4
        let bit_depth := ihdr.getD 8 0
        let color_type := ihdr.getD 9 0
        let comp_method := ihdr.getD 10 0
        let filt_method := ihdr.getD 11 0
        let interlace := ihdr.getD 12 0
        if comp_method ≠ 0 ∨ filt_method ≠ 0 then
          .error .unsupportedCompressionOrFilter
        else if interlace ≠ 0 then .error .interlacedUnsupported
        else if bit_depth ≠ 8 then .error (.unsupportedBitDepth bit_depth)
        else if color_type = 2 ∨ color_type = 6 then
          let bpp := if color_type = 2 then 3 else 4
          let idat := ((chunks.filter (fun c => c.1 = idat_tag)).map
            (fun c => c.2)).flatten
          match decomp idat with
          | none => .error .decompressError
          | some raw =>
            match unfilter_scanlines raw width height bpp with
            | .error (.tooSmall got expect) => .error (.idatTooSmall got expect)
            | .error (.badFilter f) => .error (.badFilterType f)
            | .ok pixels =>
              if bpp = 4 then .ok ⟨width, height, pixels⟩
              else .ok ⟨width, height, expand_rgb pixels (width * height)⟩
        else .error (.unsupportedColorType color_type)
      else .error .badIhdrLength

/-- `_filter_none_rgba(rgba, width, height)`: every scanline is a filter byte
0 followed by the row's raw RGBA bytes. -/
def filter_none_rgba (rgba : List Nat) (w h : Nat) : List Nat :=
  (List.range h).foldl
    (fun out y => out ++ 0 :: ((rgba.drop (y * (w * 4))).take (w * 4))) []

/-- The local `chunk(ctype, data)` helper of `write_png_rgba`: 4-byte length,
type tag, payload, 4-byte CRC (`crc32 & 0xFFFFFFFF`), with `crc32` abstracted
as `crc`. -/
def chunk_bytes (crc : List Nat → Nat) (ctype data : List Nat) : List Nat :=
  be32 data.length ++ ctype ++ data ++ be32 (crc (ctype ++ data) % 2 ^ 32)

/-- `write_png_rgba`, producing the byte string written to disk, with
`zlib.compress(·, level=6)` abstracted as `comp` and `zlib.crc32` as `crc`.
Emits the signature, an IHDR chunk (bit depth 8, color type 6, method 0,
filter 0, interlace 0), one IDAT chunk and an IEND chunk. -/
def write_png_rgba (crc : List Nat → Nat) (comp : List Nat → List Nat)
    (img : PngImage) : List Nat :=
  let ihdr := be32 img.width ++ be32 img.height ++ [8, 6, 0, 0, 0]
  let raw_scanlines := filter_none_rgba img.rgba img.width img.height
  let compressed := comp raw_scanlines
  png_signature ++ chunk_bytes crc ihdr_tag ihdr ++
    chunk_bytes crc idat_tag compressed ++ chunk_bytes crc iend_tag []

/-- RGB triple. -/
abbrev Rgb := Nat × Nat × Nat

/-- `_color_dist_sq(a, b)`: sum of squared per-channel differences, computed
over the integers as in Python. -/
def color_dist_sq (a b : Rgb) : Int :=
  ((a.1 : Int) - (b.1 : Int)) ^ 2 + ((a.2.1 : Int) - (b.2.1 : Int)) ^ 2 +
    ((a.2.2 : Int) - (b.2.2 : Int)) ^ 2

/-- Python `bytes` indexing: `l[i]` for `0 ≤ i < len` reads directly, a
negative `i` with `-len ≤ i` wraps to `len + i`, anything else raises
`IndexError` (modelled as `none`). -/
def py_get (l : List Nat) (i : Int) : Option Nat :=
  if 0 ≤ i then
    if i.toNat < l.length then some (l.getD i.toNat 0) else none
  else
    if i.natAbs ≤ l.length then some (l.getD (l.length - i.natAbs) 0) else none

/-- The local `get_rgb(x, y)` of `_sample_border_colors`:
`i = (y * w + x) * 4`, then three byte reads.  Coordinates are `Int` because
the Python call sites pass `w - 1` and `h - 1`, which are `-1` on zero-sized
images. -/
def get_rgb (rgba : List Nat) (w : Nat) (x y : Int) : Option Rgb := do
  let i := (y * (w : Int) + x) * 4
  let r ← py_get rgba i
  let g ← py_get rgba (i + 1)
  let b ← py_get rgba (i + 2)
  pure (r, g, b)

/-- `range(0, n, step)` for `step > 0`: the sampled positions
`0, step, 2*step, ...` below `n`. -/
def py_range_step (n step : Nat) : List Nat :=
  List.range' 0 ((n + step - 1) / step) step

/-- `_sample_border_colors(img, step)`: walk the top and bottom edges at the
given stride, then the left and right edges, collecting the RGB triple at
each sampled position.  A failing index lookup (possible only for zero-area
images) aborts with `none`, matching the Python `IndexError`. -/
def sample_border_colors (img : PngImage) (step : Nat) :
    Option (List Rgb) := do
  let w := img.width
  let h := img.height
  let colors1 ← (py_range_step w step).foldlM
    (fun acc (x : Nat) => do
      let c1 ← get_rgb img.rgba w (x : Int) 0
      let c2 ← get_rgb img.rgba w (x : Int) ((h : Int) - 1)
      pure (acc ++ [c1, c2]))
    []
  (py_range_step h step).foldlM
    (fun acc (y : Nat) => do
      let c1 ← get_rgb img.rgba w 0 (y : Int)
      let c2 ← get_rgb img.rgba w ((w : Int) - 1) (y : Int)
      pure (acc ++ [c1, c2]))
    colors1

/-- Deduplication preserving first-occurrence order: the key order of a
Python `Counter` built from a list. -/
def first_seen (l : List Rgb) : List Rgb :=
  l.foldl (fun acc a => if a ∈ acc then acc else acc ++ [a]) []

/-- Stable descending insertion by count: `a` is placed before the first
element of strictly smaller count, after all elements of greater or equal
count. -/
def insert_by_count (cnt : Rgb → Nat) (a : Rgb) : List Rgb → List Rgb
  | [] => [a]
  | b :: bs => if cnt b < cnt a then a :: b :: bs else b :: insert_by_count cnt a bs

/-- Stable sort by descending count (elements inserted in first-seen order). -/
def sort_by_count (cnt : Rgb → Nat) (l : List Rgb) : List Rgb :=
  l.foldl (fun acc a => insert_by_count cnt a acc) []

/-- `Counter(l).most_common(k)` restricted to the keys: the `k` highest-count
distinct elements of `l`, counts descending, ties in first-encountered order
(CPython's `most_common` is documented to be equivalent to a stable
descending sort of the counter's insertion-ordered items). -/
def most_common (l : List Rgb) (k : Nat) : List Rgb :=
  (sort_by_count (fun a => l.count a) (first_seen l)).take k

/-- The local `is_bg(rgb)` closure of `background_to_alpha_floodfill`:
true when some seed color is within squared distance `tol_sq`. -/
def is_bg (seeds : List Rgb) (tol_sq : Nat) (rgb : Rgb) : Bool :=
  seeds.any (fun s => color_dist_sq rgb s ≤ (tol_sq : Int))

/-- Mutable state of the flood fill: the RGBA buffer being edited, the
visited bitmap (`bytearray(w * h)`) and the worklist (the parallel `qx`/`qy`
stacks, popped from the end — here, from the head). -/
structure FillState where
  rgba : List Nat
  visited : List Bool
  stack : List (Nat × Nat)
deriving DecidableEq

/-- Flat pixel index `idx = y * w + x` used by `push`. -/
def pix_idx (w : Nat) (p : Nat × Nat) : Nat := p.2 * w + p.1

/-- The local `push(x, y)`: skip if already visited, otherwise mark visited
and put the pixel on the worklist. -/
def fill_push (w : Nat) (s : FillState) (p : Nat × Nat) : FillState :=
  if s.visited.getD (pix_idx w p) false then s
  else
    { rgba := s.rgba, visited := s.visited.set (pix_idx w p) true,
      stack := p :: s.stack }

/-- Seeding phase: `push(x, 0)` and `push(x, h - 1)` for every column, then
`push(0, y)` and `push(w - 1, y)` for every row (the source only reaches this
code with `w > 0` and `h > 0`, so the `Nat` subtractions agree with Python). -/
def fill_seed (w h : Nat) (rgba : List Nat) : FillState :=
  let s0 : FillState := ⟨rgba, List.replicate (w * h) false, []⟩
  let s1 := (List.range w).foldl
    (fun s x => fill_push w (fill_push w s (x, 0)) (x, h - 1)) s0
  (List.range h).foldl
    (fun s y => fill_push w (fill_push w s (0, y)) (w - 1, y)) s1

/-- One iteration of the `while qx:` loop body after popping `p`: read the
pixel's RGB from the current buffer, stop if it is not background, otherwise
zero its alpha byte and push the in-bounds 4-neighbors in source order. -/
def fill_step (w h : Nat) (seeds : List Rgb) (tol_sq : Nat) (s : FillState)
    (p : Nat × Nat) : FillState :=
  let i := 4 * pix_idx w p
  let rgb : Rgb := (s.rgba.getD i 0, s.rgba.getD (i + 1) 0, s.rgba.getD (i + 2) 0)
  if is_bg seeds tol_sq rgb then
    let s1 : FillState := ⟨s.rgba.set (i + 3) 0, s.visited, s.stack⟩
    let s2 := if 0 < p.1 then fill_push w s1 (p.1 - 1, p.2) else s1
    let s3 := if p.1 + 1 < w then fill_push w s2 (p.1 + 1, p.2) else s2
    let s4 := if 0 < p.2 then fill_push w s3 (p.1, p.2 - 1) else s3
    if p.2 + 1 < h then fill_push w s4 (p.1, p.2 + 1) else s4
  else s

/-- The `while qx:` worklist loop.  Each iteration pops one pixel; the fuel
argument is an explicit upper bound on the number of iterations (every push
marks an unvisited pixel visited, so the loop always stops; `fill_fuel`
below is proven sufficient). -/
def fill_loop (w h : Nat) (seeds : List Rgb) (tol_sq : Nat) :
    Nat → FillState → FillState
  | 0, s => s
  | fuel + 1, s =>
    match s.stack with
    | [] => s
    | p :: rest =>
      fill_loop w h seeds tol_sq fuel
        (fill_step w h seeds tol_sq ⟨s.rgba, s.visited, rest⟩ p)

/-- Fuel sufficient for the whole flood fill: the loop measure
`5 * (number of unvisited pixels) + (worklist length)` starts at most here
and strictly decreases every iteration. -/
def fill_fuel (w h : Nat) : Nat := 5 * (w * h) + 2 * (w + h)

/-- `background_to_alpha_floodfill(img, tolerance, max_seed_colors)`:
sample the border, keep the `max_seed_colors` most common border colors as
seeds (returning the input unchanged when there are none), then flood fill
from all border pixels, clearing the alpha of background pixels.  `none`
models the `IndexError` that the border sampler raises on zero-area images
with one positive dimension. -/
def background_to_alpha_floodfill (img : PngImage) (tolerance : Nat)
    (max_seed_colors : Nat) : Option PngImage :=
  match sample_border_colors img 16 with
  | none => none
  | some border_colors =>
    let seeds := most_common border_colors max_seed_colors
    if seeds.isEmpty then some img
    else
      let tol_sq := tolerance * tolerance
      let final := fill_loop img.width img.height seeds tol_sq
        (fill_fuel img.width img.height)
        (fill_seed img.width img.height img.rgba)
      some ⟨img.width, img.height, final.rgba⟩

/-- Stated from the specification's words (C2): the Paeth predictor
`p = a + b − c, pa = |p−a|, pb = |p−b|, pc = |p−c|; return a if pa ≤ pb and
pa ≤ pc; else return b if pb ≤ pc; else return c`. -/
def paeth_spec (a b c : Nat) : Nat :=
  let p : Int := (a : Int) + (b : Int) - (c : Int)
  let pa := (p - (a : Int)).natAbs
  let pb := (p - (b : Int)).natAbs
  let pc := (p - (c : Int)).natAbs
  if pa ≤ pb ∧ pa ≤ pc then a
  else if pb ≤ pc then b
  else c

/-- Stated from the specification's words (C2): the per-byte reconstruction
table — filter 0: `f`; 1: `(f+a) mod 256`; 2: `(f+b) mod 256`;
3: `(f + floor((a+b)/2)) mod 256`; 4: `(f + Paeth(a,b,c)) mod 256`. -/
def recon_byte_spec (filt f a b c : Nat) : Nat :=
  if filt = 0 then f
  else if filt = 1 then (f + a) % 256
  else if filt = 2 then (f + b) % 256
  else if filt = 3 then (f + (a + b) / 2) % 256
  else (f + paeth_spec a b c) % 256

/-- The claim's per-byte recurrence (C2) at row `y`, column byte `x`, read
off a reconstructed stream `res`: the output byte equals the spec formula
applied to the filter byte of row `y`, the filtered byte `f`, and the
already-reconstructed neighbors `a` (left), `b` (up), `c` (up-left), the
first two zero in the first `bpp` columns and the last two zero in row 0. -/
def recon_rel (res raw : List Nat) (w bpp y x : Nat) : Prop :=
  res.getD (y * (w * bpp) + x) 0 =
    recon_byte_spec (raw.getD (y * (1 + w * bpp)) 0)
      (raw.getD (y * (1 + w * bpp) + 1 + x) 0)
      (if bpp ≤ x then res.getD (y * (w * bpp) + x - bpp) 0 else 0)
      (if 0 < y then res.getD ((y - 1) * (w * bpp) + x) 0 else 0)
      (if 0 < y ∧ bpp ≤ x then res.getD ((y - 1) * (w * bpp) + x - bpp) 0
       else 0)

example : be32 5 = [0, 0, 0, 5] := by decide
example : read_be32 (be32 70000) 0 = 70000 := by decide
example : paeth 3 10 9 = 3 := by decide
example : unfilter_scanlines [1, 5, 2, 7] 1 2 1 = .ok [5, 12] := rfl
example : unfilter_scanlines [9, 0] 1 1 1 = .error (.badFilter 9) := rfl
example : unfilter_scanlines [0] 1 1 1 = .error (.tooSmall 1 2) := rfl
example : unfilter_scanlines [9] 0 1 3 = .ok [] := rfl

example : background_to_alpha_floodfill ⟨0, 0, []⟩ 28 2 = some ⟨0, 0, []⟩ := by decide
example : background_to_alpha_floodfill ⟨0, 1, []⟩ 28 2 = none := by decide
example : background_to_alpha_floodfill ⟨1, 0, []⟩ 28 2 = none := by decide
example : background_to_alpha_floodfill ⟨1, 1, [9, 9, 9, 7]⟩ 28 2 = some ⟨1, 1, [9, 9, 9, 0]⟩ := by decide
example :
    background_to_alpha_floodfill
      ⟨3, 3, [0,0,0,255, 0,0,0,255, 0,0,0,255,
              0,0,0,255, 200,0,0,255, 0,0,0,255,
              0,0,0,255, 0,0,0,255, 0,0,0,255]⟩ 28 2 =
    some ⟨3, 3, [0,0,0,0, 0,0,0,0, 0,0,0,0,
                 0,0,0,0, 200,0,0,255, 0,0,0,0,
                 0,0,0,0, 0,0,0,0, 0,0,0,0]⟩ := by decide
example :
    read_png (fun l => some l)
      (write_png_rgba (fun _ => 0) (fun l => l) ⟨1, 1, [1, 2, 3, 4]⟩) =
    .ok ⟨1, 1, [1, 2, 3, 4]⟩ := rfl
example :
    read_png (fun l => some l)
      (write_png_rgba (fun _ => 0) (fun l => l) ⟨2, 2, [1,2,3,4, 5,6,7,8, 9,10,11,12, 13,14,15,16]⟩) =
    .ok ⟨2, 2, [1,2,3,4, 5,6,7,8, 9,10,11,12, 13,14,15,16]⟩ := rfl

/-- The RGB triple of pixel `p` read from a flat RGBA buffer. -/
def rgb_at (rgba : List Nat) (w : Nat) (p : Nat × Nat) : Rgb :=
  (rgba.getD (4 * pix_idx w p) 0, rgba.getD (4 * pix_idx w p + 1) 0,
    rgba.getD (4 * pix_idx w p + 2) 0)

/-- Pixel coordinates inside the image. -/
def in_bounds (w h : Nat) (p : Nat × Nat) : Prop := p.1 < w ∧ p.2 < h

/-- Pixel on one of the four image edges. -/
def on_border (w h : Nat) (p : Nat × Nat) : Prop :=
  p.1 = 0 ∨ p.1 = w - 1 ∨ p.2 = 0 ∨ p.2 = h - 1

/-- 4-connectivity: `p` and `q` differ by one in exactly one coordinate. -/
def adjacent (p q : Nat × Nat) : Prop :=
  (p.1 = q.1 ∧ (p.2 = q.2 + 1 ∨ q.2 = p.2 + 1)) ∨
  (p.2 = q.2 ∧ (p.1 = q.1 + 1 ∨ q.1 = p.1 + 1))

/-- Stated from the specification's words (C3): a pixel is border-connected
background when it satisfies the background predicate `bg` and is reachable
from some edge pixel through a path of `bg`-satisfying pixels under
4-connectivity. -/
inductive ReachesBg (w h : Nat) (bg : Nat × Nat → Prop) : Nat × Nat → Prop where
  | border : ∀ p, in_bounds w h p → on_border w h p → bg p → ReachesBg w h bg p
  | step : ∀ p q, ReachesBg w h bg p → adjacent p q → in_bounds w h q → bg q →
      ReachesBg w h bg q

/-- The neighbors `fill_step` pushes for `p`, in source order (left, right,
up, down, each guarded by the bounds checks of the source). -/
def step_nbrs (w h : Nat) (p : Nat × Nat) : List (Nat × Nat) :=
  (if 0 < p.1 then [(p.1 - 1, p.2)] else []) ++
    ((if p.1 + 1 < w then [(p.1 + 1, p.2)] else []) ++
      ((if 0 < p.2 then [(p.1, p.2 - 1)] else []) ++
        (if p.2 + 1 < h then [(p.1, p.2 + 1)] else [])))

/-- The loop measure of the flood fill: every push marks an unvisited pixel
visited, every pop shortens the worklist. -/
def fill_measure (s : FillState) : Nat :=
  5 * s.visited.count false + s.stack.length

/-- The invariant carried through the flood-fill loop, relative to the
original buffer `rgba0` and the seed colors: buffer shape is preserved,
non-alpha bytes are untouched, every zeroed alpha belongs to a
border-connected background pixel (`ReachesBg`), worklist pixels are
in-bounds, visited, and reach-sound, fully processed background pixels are
cleared with all neighbors visited, and every border pixel is visited. -/
structure FillInv (w h : Nat) (rgba0 : List Nat) (seeds : List Rgb)
    (tol_sq : Nat) (s : FillState) : Prop where
  len_rgba : s.rgba.length = rgba0.length
  len_vis : s.visited.length = w * h
  rgb_frame : ∀ i, i % 4 ≠ 3 → s.rgba.getD i 0 = rgba0.getD i 0
  alpha_sound : ∀ p, in_bounds w h p →
    s.rgba.getD (4 * pix_idx w p + 3) 0 = rgba0.getD (4 * pix_idx w p + 3) 0 ∨
    (s.rgba.getD (4 * pix_idx w p + 3) 0 = 0 ∧
      ReachesBg w h (fun q => is_bg seeds tol_sq (rgb_at rgba0 w q) = true) p)
  alpha_out : ∀ i, i % 4 = 3 → w * h * 4 ≤ i →
    s.rgba.getD i 0 = rgba0.getD i 0
  stack_ok : ∀ p ∈ s.stack, in_bounds w h p ∧
    s.visited.getD (pix_idx w p) false = true
  stack_reach : ∀ p ∈ s.stack,
    is_bg seeds tol_sq (rgb_at rgba0 w p) = true →
    ReachesBg w h (fun q => is_bg seeds tol_sq (rgb_at rgba0 w q) = true) p
  processed : ∀ p, in_bounds w h p →
    s.visited.getD (pix_idx w p) false = true → p ∉ s.stack →
    is_bg seeds tol_sq (rgb_at rgba0 w p) = true →
    s.rgba.getD (4 * pix_idx w p + 3) 0 = 0 ∧
    ∀ q, adjacent p q → in_bounds w h q →
      s.visited.getD (pix_idx w q) false = true
  border_vis : ∀ p, in_bounds w h p → on_border w h p →
    s.visited.getD (pix_idx w p) false = true

/-- Stated from the specification's words (C7): the border scan — the RGB
triples at every `step`-th position along the top and bottom edges, then
along the left and right edges, in the source's interleaved order. -/
def border_scan (img : PngImage) (step : Nat) : List Rgb :=
  (py_range_step img.width step).flatMap
    (fun x => [rgb_at img.rgba img.width (x, 0),
      rgb_at img.rgba img.width (x, img.height - 1)]) ++
  (py_range_step img.height step).flatMap
    (fun y => [rgb_at img.rgba img.width (0, y),
      rgb_at img.rgba img.width (img.width - 1, y)])

/-- The border pixels pushed during the seeding phase, in push order:
`(x, 0)`, `(x, h-1)` for each column, then `(0, y)`, `(w-1, y)` for each
row. -/
def seed_list (w h : Nat) : List (Nat × Nat) :=
  ((List.range w).flatMap (fun x => [(x, 0), (x, h - 1)])) ++
    ((List.range h).flatMap (fun y => [(0, y), (w - 1, y)]))

/-! ### List helper lemmas -/

lemma getD_drop_nat (l : List Nat) (i k : Nat) :
    (l.drop i).getD k 0 = l.getD (i + k) 0 := by
  simp [List.getD_eq_getElem?_getD, List.getElem?_drop]

lemma getD_take_lt (l : List Nat) (n k : Nat) (h : k < n) :
    (l.take n).getD k 0 = l.getD k 0 := by
  simp [List.getD_eq_getElem?_getD, List.getElem?_take, h]

lemma getD_append_lt (l l' : List Nat) (i : Nat) (h : i < l.length) :
    (l ++ l').getD i 0 = l.getD i 0 :=
  List.getD_append l l' 0 i h

lemma getD_append_last (l : List Nat) (v : Nat) (l' : List Nat) :
    ((l ++ [v]) ++ l').getD l.length 0 = v := by
  rw [getD_append_lt]
  · rw [List.getD_append_right l [v] 0 l.length (le_refl _)]
    simp
  · simp

lemma src_getD (raw : List Nat) (m n x : Nat) (hx : x < n) :
    ((raw.drop m).take n).getD x 0 = raw.getD (m + x) 0 := by
  rw [getD_take_lt _ _ _ hx, getD_drop_nat]

/-! ### Reconstruction of a filtered row (`unfilter_bytes`) -/

lemma paeth_spec_eq_paeth (a b c : Nat) : paeth_spec a b c = paeth a b c := rfl

lemma recon_byte_spec_lt (filt f a b c : Nat) (h1 : 1 ≤ filt) :
    recon_byte_spec filt f a b c < 256 := by
  unfold recon_byte_spec
  split
  · omega
  · split
    · exact Nat.mod_lt _ (by omega)
    · split
      · exact Nat.mod_lt _ (by omega)
      · split
        · exact Nat.mod_lt _ (by omega)
        · exact Nat.mod_lt _ (by omega)

lemma unfilter_bytes_step (filt bpp rowBytes y : Nat) (src : List Nat)
    (rem x : Nat) (out : List Nat) (h1 : 1 ≤ filt) (h4 : filt ≤ 4) :
    unfilter_bytes filt bpp rowBytes y src (rem + 1) x out =
      unfilter_bytes filt bpp rowBytes y src rem (x + 1)
        (out ++ [recon_byte_spec filt (src.getD x 0)
          (if bpp ≤ x then out.getD (y * rowBytes + x - bpp) 0 else 0)
          (if 0 < y then out.getD (y * rowBytes - rowBytes + x) 0 else 0)
          (if 0 < y ∧ bpp ≤ x then
            out.getD (y * rowBytes - rowBytes + x - bpp) 0 else 0)]) := by
  interval_cases filt <;>
    simp [unfilter_bytes, recon_byte_spec, paeth_spec_eq_paeth]

lemma unfilter_bytes_ok (filt bpp rowBytes y : Nat) (src : List Nat)
    (h1 : 1 ≤ filt) (h4 : filt ≤ 4) (hbpp : 1 ≤ bpp) :
    ∀ rem x out, x + rem = rowBytes → out.length = y * rowBytes + x →
    ∃ tail,
      unfilter_bytes filt bpp rowBytes y src rem x out = .ok (out ++ tail) ∧
      tail.length = rem ∧
      (∀ b ∈ tail, b < 256) ∧
      (∀ x', x ≤ x' → x' < rowBytes →
        (out ++ tail).getD (y * rowBytes + x') 0 =
          recon_byte_spec filt (src.getD x' 0)
            (if bpp ≤ x' then (out ++ tail).getD (y * rowBytes + x' - bpp) 0
             else 0)
            (if 0 < y then (out ++ tail).getD ((y - 1) * rowBytes + x') 0
             else 0)
            (if 0 < y ∧ bpp ≤ x' then
              (out ++ tail).getD ((y - 1) * rowBytes + x' - bpp) 0
             else 0)) := by
  intro rem
  induction rem with
  | zero =>
    intro x out hx hlen
    refine ⟨[], ?_, rfl, by simp, ?_⟩
    · simp [unfilter_bytes]
    · intro x' hx1 hx2
      omega
  | succ rem ih =>
    intro x out hx hlen
    have hxlt : x < rowBytes := by omega
    rw [unfilter_bytes_step filt bpp rowBytes y src rem x out h1 h4]
    set v := recon_byte_spec filt (src.getD x 0)
      (if bpp ≤ x then out.getD (y * rowBytes + x - bpp) 0 else 0)
      (if 0 < y then out.getD (y * rowBytes - rowBytes + x) 0 else 0)
      (if 0 < y ∧ bpp ≤ x then
        out.getD (y * rowBytes - rowBytes + x - bpp) 0 else 0) with hv
    obtain ⟨tail, heq, htlen, htb, hpts⟩ :=
      ih (x + 1) (out ++ [v]) (by omega) (by simp [hlen]; omega)
    refine ⟨v :: tail, ?_, by simp [htlen], ?_, ?_⟩
    · rw [heq]
      simp
    · intro b hb
      rcases List.mem_cons.mp hb with hb | hb
      · exact hb ▸ recon_byte_spec_lt filt _ _ _ _ h1
      · exact htb b hb
    · intro x' hx1 hx2
      have hres : out ++ v :: tail = (out ++ [v]) ++ tail := by simp
      rcases Nat.lt_or_ge x x' with hgt | hle
      · rw [hres]
        exact hpts x' (by omega) hx2
      · have hxx : x' = x := by omega
        subst hxx
        rw [hres]
        have hrb : 0 < rowBytes := by omega
        have hyrb : 0 < y → rowBytes ≤ y * rowBytes := fun hy =>
          Nat.le_mul_of_pos_left _ hy
        have hmain : ((out ++ [v]) ++ tail).getD (y * rowBytes + x') 0 = v := by
          have hidx : y * rowBytes + x' = out.length := by omega
          rw [hidx]
          exact getD_append_last out v tail
        have hA : (if bpp ≤ x' then
              ((out ++ [v]) ++ tail).getD (y * rowBytes + x' - bpp) 0 else 0)
            = (if bpp ≤ x' then out.getD (y * rowBytes + x' - bpp) 0 else 0) := by
          by_cases hc : bpp ≤ x'
          · have hb1 : y * rowBytes + x' - bpp < (out ++ [v]).length := by
              simp only [List.length_append, List.length_singleton]
              omega
            have hb2 : y * rowBytes + x' - bpp < out.length := by omega
            simp only [hc, if_true]
            rw [getD_append_lt (out ++ [v]) tail _ hb1,
              getD_append_lt out [v] _ hb2]
          · simp [hc]
        have hB : (if 0 < y then
              ((out ++ [v]) ++ tail).getD ((y - 1) * rowBytes + x') 0 else 0)
            = (if 0 < y then out.getD (y * rowBytes - rowBytes + x') 0 else 0) := by
          by_cases hc : 0 < y
          · have hidx : (y - 1) * rowBytes + x'
                = y * rowBytes - rowBytes + x' := by
              rw [Nat.sub_one_mul]
            have hle2 := hyrb hc
            have hb1 : y * rowBytes - rowBytes + x' < (out ++ [v]).length := by
              simp only [List.length_append, List.length_singleton]
              omega
            have hb2 : y * rowBytes - rowBytes + x' < out.length := by omega
            simp only [hc, if_true]
            rw [hidx, getD_append_lt (out ++ [v]) tail _ hb1,
              getD_append_lt out [v] _ hb2]
          · simp [hc]
        have hC : (if 0 < y ∧ bpp ≤ x' then
              ((out ++ [v]) ++ tail).getD ((y - 1) * rowBytes + x' - bpp) 0
              else 0)
            = (if 0 < y ∧ bpp ≤ x' then
              out.getD (y * rowBytes - rowBytes + x' - bpp) 0 else 0) := by
          by_cases hc : 0 < y ∧ bpp ≤ x'
          · have hidx : (y - 1) * rowBytes + x' - bpp
                = y * rowBytes - rowBytes + x' - bpp := by
              rw [Nat.sub_one_mul]
            have hle2 := hyrb hc.1
            have hb1 : y * rowBytes - rowBytes + x' - bpp < (out ++ [v]).length := by
              simp only [List.length_append, List.length_singleton]
              omega
            have hb2 : y * rowBytes - rowBytes + x' - bpp < out.length := by omega
            simp only [hc, if_true]
            rw [hidx, getD_append_lt (out ++ [v]) tail _ hb1,
              getD_append_lt out [v] _ hb2]
          · simp [hc]
        rw [hmain, hA, hB, hC]

lemma recon_byte_spec_zero (f a b c : Nat) : recon_byte_spec 0 f a b c = f := by
  simp [recon_byte_spec]

lemma unfilter_rows_ok (raw : List Nat) (w bpp : Nat) :
    ∀ rem y out,
    (∀ y', y ≤ y' → y' < y + rem → raw.getD (y' * (1 + w * bpp)) 0 ≤ 4) →
    (y + rem) * (1 + w * bpp) ≤ raw.length →
    out.length = y * (w * bpp) →
    ∃ tail,
      unfilter_rows raw w bpp rem y out = .ok (out ++ tail) ∧
      (out ++ tail).length = (y + rem) * (w * bpp) ∧
      (∀ b ∈ tail, b < 256 ∨ b ∈ raw) ∧
      (∀ y' x, y ≤ y' → y' < y + rem → x < w * bpp →
        recon_rel (out ++ tail) raw w bpp y' x) := by
  intro rem
  induction rem with
  | zero =>
    intro y out hfilt hraw hlen
    refine ⟨[], by simp [unfilter_rows], by simp [hlen], by simp, ?_⟩
    intro y' x h1 h2
    omega
  | succ rem ih =>
    intro y out hfilt hraw hlen
    have hsum1 : y + (rem + 1) = y + rem + 1 := by omega
    have hsum2 : y + 1 + rem = y + rem + 1 := by omega
    rw [hsum1] at hraw ⊢
    have hstep : (y + 1) * (1 + w * bpp) ≤ (y + rem + 1) * (1 + w * bpp) :=
      mul_le_mul_right' (by omega) _
    have hexp : (y + 1) * (1 + w * bpp) = y * (1 + w * bpp) + (1 + w * bpp) := by
      ring
    have hfy : raw.getD (y * (1 + w * bpp)) 0 ≤ 4 :=
      hfilt y (le_refl _) (by omega)
    by_cases hf0 : raw.getD (y * (1 + w * bpp)) 0 = 0
    · -- filter type 0: verbatim copy of the row
      have hsrclen :
          ((raw.drop (y * (1 + w * bpp) + 1)).take (w * bpp)).length = w * bpp := by
        simp only [List.length_take, List.length_drop]
        omega
      obtain ⟨tail', heq, hlen', hb', hpts'⟩ :=
        ih (y + 1) (out ++ (raw.drop (y * (1 + w * bpp) + 1)).take (w * bpp))
          (fun y' h1 h2 => hfilt y' (by omega) (by omega))
          (by rw [hsum2]; exact hraw)
          (by simp [hsrclen, hlen, Nat.succ_mul])
      rw [hsum2] at hlen' hpts'
      refine ⟨(raw.drop (y * (1 + w * bpp) + 1)).take (w * bpp) ++ tail', ?_, ?_, ?_, ?_⟩
      · show unfilter_rows raw w bpp (rem + 1) y out = _
        simp only [unfilter_rows, hf0, if_true, if_pos]
        rw [heq]
        simp
      · rw [← List.append_assoc]
        omega
      · intro b hb
        rcases List.mem_append.mp hb with hb | hb
        · exact Or.inr (List.drop_subset _ _ (List.take_subset _ _ hb))
        · exact hb' b hb
      · intro y' x hy1 hy2 hx
        rw [← List.append_assoc]
        rcases Nat.lt_or_ge y y' with hgt | hle2
        · exact hpts' y' x (by omega) (by omega) hx
        · have hyy : y' = y := by omega
          subst hyy
          unfold recon_rel
          rw [hf0, recon_byte_spec_zero]
          set res0 := out ++ (raw.drop (y' * (1 + w * bpp) + 1)).take (w * bpp)
            with hres0
          have hidx : y' * (w * bpp) + x < res0.length := by
            rw [hres0]
            simp only [List.length_append, hsrclen, hlen]
            omega
          rw [getD_append_lt res0 tail' _ hidx, hres0,
            List.getD_append_right out _ 0 _ (by omega), hlen]
          have hxidx : y' * (w * bpp) + x - y' * (w * bpp) = x := by omega
          rw [hxidx, src_getD raw _ _ x hx]
    · -- filter types 1..4 (or the impossible > 4, excluded by `hfy`)
      have h1 : 1 ≤ raw.getD (y * (1 + w * bpp)) 0 := by omega
      by_cases hrb : w * bpp = 0
      · -- zero row width: the inner loop runs zero iterations
        obtain ⟨tail', heq, hlen', hb', hpts'⟩ :=
          ih (y + 1) out
            (fun y' ha hb2 => hfilt y' (by omega) (by omega))
            (by rw [hsum2]; exact hraw)
            (by rw [hlen, hrb, Nat.mul_zero, Nat.mul_zero])
        rw [hsum2] at hlen' hpts'
        refine ⟨tail', ?_, by omega, hb', ?_⟩
        · show unfilter_rows raw w bpp (rem + 1) y out = _
          simp only [unfilter_rows, hf0, if_false, if_neg]
          rw [hrb]
          simp only [unfilter_bytes]
          rw [heq]
        · intro y' x hy1 hy2 hx
          rcases Nat.lt_or_ge y y' with hgt | hle2
          · exact hpts' y' x (by omega) (by omega) hx
          · omega
      · have hbpp : 1 ≤ bpp := by
          rcases Nat.eq_zero_or_pos bpp with h0 | h0
          · exfalso; rw [h0, Nat.mul_zero] at hrb; exact hrb rfl
          · exact h0
        obtain ⟨rowTail, heqRow, hrtLen, hrtB, hrtPts⟩ :=
          unfilter_bytes_ok (raw.getD (y * (1 + w * bpp)) 0) bpp (w * bpp) y
            ((raw.drop (y * (1 + w * bpp) + 1)).take (w * bpp)) h1 hfy hbpp
            (w * bpp) 0 out (by omega) (by omega)
        obtain ⟨tail', heq, hlen', hb', hpts'⟩ :=
          ih (y + 1) (out ++ rowTail)
            (fun y' ha hb2 => hfilt y' (by omega) (by omega))
            (by rw [hsum2]; exact hraw)
            (by simp [hrtLen, hlen, Nat.succ_mul])
        rw [hsum2] at hlen' hpts'
        refine ⟨rowTail ++ tail', ?_, ?_, ?_, ?_⟩
        · show unfilter_rows raw w bpp (rem + 1) y out = _
          simp only [unfilter_rows, hf0, if_false, if_neg]
          rw [heqRow]
          simp only []
          rw [heq]
          simp
        · rw [← List.append_assoc]
          omega
        · intro b hb
          rcases List.mem_append.mp hb with hb | hb
          · exact Or.inl (hrtB b hb)
          · exact hb' b hb
        · intro y' x hy1 hy2 hx
          rw [← List.append_assoc]
          rcases Nat.lt_or_ge y y' with hgt | hle2
          · exact hpts' y' x (by omega) (by omega) hx
          · have hyy : y' = y := by omega
            subst hyy
            unfold recon_rel
            have hsucc : (y' + 1) * (w * bpp) = y' * (w * bpp) + w * bpp := by
              ring
            have hres0len : (out ++ rowTail).length = (y' + 1) * (w * bpp) := by
              simp [hrtLen, hlen, Nat.succ_mul]
            have hstab : ∀ j, j < (y' + 1) * (w * bpp) →
                ((out ++ rowTail) ++ tail').getD j 0 = (out ++ rowTail).getD j 0 := by
              intro j hj
              exact getD_append_lt _ tail' _ (by omega)
            have hyrb : 0 < y' → w * bpp ≤ y' * (w * bpp) := fun hy =>
              Nat.le_mul_of_pos_left _ hy
            have hmono : y' * (w * bpp) ≤ (y' + 1) * (w * bpp) :=
              mul_le_mul_right' (by omega) _
            rw [hstab _ (by omega)]
            have hA : (if bpp ≤ x then
                  ((out ++ rowTail) ++ tail').getD (y' * (w * bpp) + x - bpp) 0
                  else 0)
                = (if bpp ≤ x then
                  (out ++ rowTail).getD (y' * (w * bpp) + x - bpp) 0 else 0) := by
              by_cases hc : bpp ≤ x
              · simp only [hc, if_true]; exact hstab _ (by omega)
              · simp [hc]
            have hB : (if 0 < y' then
                  ((out ++ rowTail) ++ tail').getD ((y' - 1) * (w * bpp) + x) 0
                  else 0)
                = (if 0 < y' then
                  (out ++ rowTail).getD ((y' - 1) * (w * bpp) + x) 0 else 0) := by
              by_cases hc : 0 < y'
              · have : (y' - 1) * (w * bpp) + x < (y' + 1) * (w * bpp) := by
                  have h2 : (y' - 1) * (w * bpp) ≤ y' * (w * bpp) :=
                    mul_le_mul_right' (by omega) _
                  omega
                simp only [hc, if_true]; exact hstab _ this
              · simp [hc]
            have hC : (if 0 < y' ∧ bpp ≤ x then
                  ((out ++ rowTail) ++ tail').getD ((y' - 1) * (w * bpp) + x - bpp) 0
                  else 0)
                = (if 0 < y' ∧ bpp ≤ x then
                  (out ++ rowTail).getD ((y' - 1) * (w * bpp) + x - bpp) 0 else 0) := by
              by_cases hc : 0 < y' ∧ bpp ≤ x
              · have h2 : (y' - 1) * (w * bpp) ≤ y' * (w * bpp) :=
                  mul_le_mul_right' (by omega) _
                simp only [hc, if_true]; exact hstab _ (by omega)
              · simp [hc]
            have hpt := hrtPts x (Nat.zero_le _) hx
            rw [src_getD raw _ _ x hx] at hpt
            rw [hA, hB, hC]
            exact hpt

lemma unfilter_scanlines_ok (raw : List Nat) (w h bpp : Nat)
    (hlen : h * (1 + w * bpp) ≤ raw.length)
    (hfilt : ∀ y, y < h → raw.getD (y * (1 + w * bpp)) 0 ≤ 4) :
    ∃ out, unfilter_scanlines raw w h bpp = .ok out ∧
      out.length = h * (w * bpp) ∧
      (∀ b ∈ out, b < 256 ∨ b ∈ raw) ∧
      (∀ y x, y < h → x < w * bpp → recon_rel out raw w bpp y x) := by
  obtain ⟨tail, heq, hl, hb, hp⟩ := unfilter_rows_ok raw w bpp h 0 []
    (fun y' h1 h2 => hfilt y' (by omega))
    (by simpa using hlen) (by simp)
  simp only [List.nil_append] at heq hl hp
  refine ⟨tail, ?_, by simpa using hl, hb, fun y x h1 h2 => hp y x (by omega) (by omega) h2⟩
  unfold unfilter_scanlines
  rw [if_neg (by omega)]
  exact heq

lemma unfilter_scanlines_too_small (raw : List Nat) (w h bpp : Nat)
    (hlt : raw.length < h * (1 + w * bpp)) :
    unfilter_scanlines raw w h bpp =
      .error (.tooSmall raw.length (h * (1 + w * bpp))) := by
  unfold unfilter_scanlines
  rw [if_pos hlt]

lemma unfilter_bytes_ne_error (filt bpp rowBytes y : Nat) (src : List Nat)
    (h1 : 1 ≤ filt) (h4 : filt ≤ 4) :
    ∀ rem x out, ∃ res,
      unfilter_bytes filt bpp rowBytes y src rem x out = .ok res := by
  intro rem
  induction rem with
  | zero => intro x out; exact ⟨out, rfl⟩
  | succ rem ih =>
    intro x out
    interval_cases filt <;>
      · simp only [unfilter_bytes]
        exact ih (x + 1) _

lemma unfilter_bytes_bad (filt bpp rowBytes y : Nat) (src : List Nat)
    (rem x : Nat) (out : List Nat) (h5 : 4 < filt) :
    unfilter_bytes filt bpp rowBytes y src (rem + 1) x out =
      .error (.badFilter filt) := by
  obtain ⟨f, rfl⟩ : ∃ f, filt = f + 5 := ⟨filt - 5, by omega⟩
  rfl

lemma unfilter_bytes_bad_pos (filt bpp rowBytes y : Nat) (src : List Nat)
    (rem x : Nat) (out : List Nat) (h5 : 4 < filt) (hrem : 0 < rem) :
    unfilter_bytes filt bpp rowBytes y src rem x out =
      .error (.badFilter filt) := by
  obtain ⟨t, rfl⟩ : ∃ t, rem = t + 1 := ⟨rem - 1, by omega⟩
  exact unfilter_bytes_bad filt bpp rowBytes y src t x out h5

lemma unfilter_rows_first_bad (raw : List Nat) (w bpp : Nat) :
    ∀ rem y z out, y ≤ z → z < y + rem →
    (∀ y', y ≤ y' → y' < z → raw.getD (y' * (1 + w * bpp)) 0 ≤ 4) →
    4 < raw.getD (z * (1 + w * bpp)) 0 →
    0 < w * bpp →
    unfilter_rows raw w bpp rem y out =
      .error (.badFilter (raw.getD (z * (1 + w * bpp)) 0)) := by
  intro rem
  induction rem with
  | zero => intro y z out h1 h2; omega
  | succ rem ih =>
    intro y z out h1 h2 hok hbad hrb
    by_cases hyz : y = z
    · subst hyz
      have hne : ¬ raw.getD (y * (1 + w * bpp)) 0 = 0 := by omega
      show unfilter_rows raw w bpp (rem + 1) y out = _
      simp only [unfilter_rows, hne, if_false, if_neg]
      rw [unfilter_bytes_bad_pos _ bpp _ y _ (w * bpp) 0 out hbad hrb]
    · have hfy : raw.getD (y * (1 + w * bpp)) 0 ≤ 4 :=
        hok y (le_refl _) (by omega)
      show unfilter_rows raw w bpp (rem + 1) y out = _
      by_cases hf0 : raw.getD (y * (1 + w * bpp)) 0 = 0
      · simp only [unfilter_rows, hf0, if_true, if_pos]
        exact ih (y + 1) z _ (by omega) (by omega)
          (fun y' ha hb => hok y' (by omega) hb) hbad hrb
      · simp only [unfilter_rows, hf0, if_false, if_neg]
        obtain ⟨res, hres⟩ := unfilter_bytes_ne_error
          (raw.getD (y * (1 + w * bpp)) 0) bpp (w * bpp) y _ (by omega) hfy
          (w * bpp) 0 out
        rw [hres]
        exact ih (y + 1) z res (by omega) (by omega)
          (fun y' ha hb => hok y' (by omega) hb) hbad hrb

lemma unfilter_rows_take (raw : List Nat) (w bpp n : Nat) :
    ∀ rem y out, (y + rem) * (1 + w * bpp) ≤ n →
    unfilter_rows (raw.take n) w bpp rem y out =
      unfilter_rows raw w bpp rem y out := by
  intro rem
  induction rem with
  | zero => intro y out hn; rfl
  | succ rem ih =>
    intro y out hn
    have hsum1 : y + (rem + 1) = y + rem + 1 := by omega
    rw [hsum1] at hn
    have hexp : (y + rem + 1) * (1 + w * bpp)
        = (y + rem) * (1 + w * bpp) + (1 + w * bpp) := by ring
    have hy1 : (y + 1) * (1 + w * bpp) ≤ (y + rem + 1) * (1 + w * bpp) :=
      mul_le_mul_right' (by omega) _
    have hyexp : (y + 1) * (1 + w * bpp) = y * (1 + w * bpp) + (1 + w * bpp) := by
      ring
    have hmono : y * (1 + w * bpp) ≤ (y + rem + 1) * (1 + w * bpp) :=
      mul_le_mul_right' (by omega) _
    have hflt : (raw.take n).getD (y * (1 + w * bpp)) 0
        = raw.getD (y * (1 + w * bpp)) 0 :=
      getD_take_lt raw n _ (by omega)
    have hsrc : ((raw.take n).drop (y * (1 + w * bpp) + 1)).take (w * bpp)
        = (raw.drop (y * (1 + w * bpp) + 1)).take (w * bpp) := by
      rw [List.drop_take, List.take_take]
      congr 1
      omega
    have hsum2 : y + 1 + rem = y + rem + 1 := by omega
    show unfilter_rows (raw.take n) w bpp (rem + 1) y out = _
    simp only [unfilter_rows, hflt, hsrc]
    by_cases hf0 : raw.getD (y * (1 + w * bpp)) 0 = 0
    · simp only [hf0, if_true, if_pos]
      exact ih (y + 1) _ (by rw [hsum2]; exact hn)
    · simp only [hf0, if_false, if_neg]
      cases unfilter_bytes (raw.getD (y * (1 + w * bpp)) 0) bpp (w * bpp) y
          ((raw.drop (y * (1 + w * bpp) + 1)).take (w * bpp)) (w * bpp) 0 out with
      | error e => rfl
      | ok out2 => exact ih (y + 1) out2 (by rw [hsum2]; exact hn)

/-- C2: for an inflated stream of at least `height * (1 + width*bpp)` bytes
whose per-row filter-type bytes all lie in 0..4, scanline reconstruction
succeeds and every output byte satisfies the claim's recurrence
(`recon_rel`): filter 0 copies `f`, filters 1-4 add the left / up / average /
Paeth predictor of the already-reconstructed neighbors modulo 256, with
`a`, `c` zero in the first `bpp` columns and `b`, `c` zero in row 0. -/
theorem c2_scanline_reconstruction (raw : List Nat) (w h bpp : Nat)
    (hlen : h * (1 + w * bpp) ≤ raw.length)
    (hfilt : ∀ y, y < h → raw.getD (y * (1 + w * bpp)) 0 ≤ 4) :
    ∃ out, unfilter_scanlines raw w h bpp = .ok out ∧
      out.length = h * (w * bpp) ∧
      ∀ y x, y < h → x < w * bpp → recon_rel out raw w bpp y x := by
  obtain ⟨out, h1, h2, _, h4⟩ := unfilter_scanlines_ok raw w h bpp hlen hfilt
  exact ⟨out, h1, h2, h4⟩

/-- Witness for C2 at a concrete stream: two one-byte rows, filters 1 and 2. -/
theorem c2_scanline_reconstruction_witness :
    (2 * (1 + 1 * 1) ≤ ([1, 5, 2, 7] : List Nat).length) ∧
    (∀ y, y < 2 → ([1, 5, 2, 7] : List Nat).getD (y * (1 + 1 * 1)) 0 ≤ 4) ∧
    (∃ out, unfilter_scanlines [1, 5, 2, 7] 1 2 1 = .ok out ∧
      out.length = 2 * (1 * 1) ∧
      ∀ y x, y < 2 → x < 1 * 1 → recon_rel out [1, 5, 2, 7] 1 1 y x) :=
  ⟨by decide, by decide,
    c2_scanline_reconstruction [1, 5, 2, 7] 1 2 1 (by decide) (by decide)⟩

/-- C10: a longer-than-expected inflated stream is reconstructed exactly as
its truncation to the expected `height * (1 + width*bpp)` bytes — the
surplus raises no error and never influences any output byte. -/
theorem c10_surplus_ignored (raw : List Nat) (w h bpp : Nat)
    (hlong : h * (1 + w * bpp) < raw.length) :
    unfilter_scanlines raw w h bpp =
      unfilter_scanlines (raw.take (h * (1 + w * bpp))) w h bpp ∧
    ∀ out, unfilter_scanlines (raw.take (h * (1 + w * bpp))) w h bpp = .ok out →
      unfilter_scanlines raw w h bpp = .ok out := by
  have htl : (raw.take (h * (1 + w * bpp))).length = h * (1 + w * bpp) := by
    simp only [List.length_take]
    omega
  have hmain : unfilter_scanlines raw w h bpp =
      unfilter_scanlines (raw.take (h * (1 + w * bpp))) w h bpp := by
    unfold unfilter_scanlines
    rw [if_neg (by omega), if_neg (by omega)]
    refine (unfilter_rows_take raw w bpp (h * (1 + w * bpp)) h 0 [] ?_).symm
    rw [Nat.zero_add]
  exact ⟨hmain, fun out hout => hmain.trans hout⟩

/-- Witness for C10: a stream with two surplus bytes. -/
theorem c10_surplus_ignored_witness :
    (2 * (1 + 1 * 1) < ([1, 5, 2, 7, 99, 98] : List Nat).length) ∧
    (unfilter_scanlines [1, 5, 2, 7, 99, 98] 1 2 1 =
      unfilter_scanlines (([1, 5, 2, 7, 99, 98] : List Nat).take (2 * (1 + 1 * 1))) 1 2 1 ∧
    ∀ out,
      unfilter_scanlines (([1, 5, 2, 7, 99, 98] : List Nat).take (2 * (1 + 1 * 1))) 1 2 1 = .ok out →
      unfilter_scanlines [1, 5, 2, 7, 99, 98] 1 2 1 = .ok out) :=
  ⟨by decide, c10_surplus_ignored [1, 5, 2, 7, 99, 98] 1 2 1 (by decide)⟩

/-- Counterexample to C4 as stated: for a zero-width image (`w = 0`) the
per-byte loop body never runs, so a filter-type byte of 9 — outside 0..4 —
raises no error and reconstruction succeeds. -/
theorem c4_counterexample : unfilter_scanlines [9] 0 1 3 = .ok [] := rfl

/-- C4 (amended): the header-validation errors fire exactly as claimed, and
reconstruction fails on an undersized stream reporting got/expected and on
the first out-of-range filter-type byte provided each row has at least one
byte (`width * bpp > 0`; a zero-width row's invalid filter byte goes
undetected, see the counterexample).  Errors are `Except.error` values, so
no image is returned. -/
theorem c4_decode_errors :
    (∀ (decomp : List Nat → Option (List Nat)) (png : List Nat)
      (ihdrC : List Nat × List Nat),
      png_signature.isPrefixOf png = true →
      ((read_chunks_from png 8).filter (fun c => c.1 = ihdr_tag)).getLast?
        = some ihdrC →
      ihdrC.2.length = 13 →
      ((ihdrC.2.getD 10 0 ≠ 0 ∨ ihdrC.2.getD 11 0 ≠ 0 →
        read_png decomp png = .error .unsupportedCompressionOrFilter) ∧
      (ihdrC.2.getD 10 0 = 0 → ihdrC.2.getD 11 0 = 0 →
        ihdrC.2.getD 12 0 ≠ 0 →
        read_png decomp png = .error .interlacedUnsupported) ∧
      (ihdrC.2.getD 10 0 = 0 → ihdrC.2.getD 11 0 = 0 →
        ihdrC.2.getD 12 0 = 0 → ihdrC.2.getD 8 0 ≠ 8 →
        read_png decomp png = .error (.unsupportedBitDepth (ihdrC.2.getD 8 0))) ∧
      (ihdrC.2.getD 10 0 = 0 → ihdrC.2.getD 11 0 = 0 →
        ihdrC.2.getD 12 0 = 0 → ihdrC.2.getD 8 0 = 8 →
        ihdrC.2.getD 9 0 ≠ 2 → ihdrC.2.getD 9 0 ≠ 6 →
        read_png decomp png = .error (.unsupportedColorType (ihdrC.2.getD 9 0))))) ∧
    (∀ (raw : List Nat) (w h bpp : Nat), raw.length < h * (1 + w * bpp) →
      unfilter_scanlines raw w h bpp =
        .error (.tooSmall raw.length (h * (1 + w * bpp)))) ∧
    (∀ (raw : List Nat) (w h bpp z : Nat), 0 < w * bpp → z < h →
      h * (1 + w * bpp) ≤ raw.length →
      (∀ y, y < z → raw.getD (y * (1 + w * bpp)) 0 ≤ 4) →
      4 < raw.getD (z * (1 + w * bpp)) 0 →
      unfilter_scanlines raw w h bpp =
        .error (.badFilter (raw.getD (z * (1 + w * bpp)) 0))) := by
  refine ⟨?_, ?_, ?_⟩
  · intro decomp png ihdrC hsig hihdr h13
    have hbase : ∀ e : PngError,
        (if ihdrC.2.getD 10 0 ≠ 0 ∨ ihdrC.2.getD 11 0 ≠ 0 then
          Except.error PngError.unsupportedCompressionOrFilter
        else if ihdrC.2.getD 12 0 ≠ 0 then Except.error .interlacedUnsupported
        else if ihdrC.2.getD 8 0 ≠ 8 then
          Except.error (.unsupportedBitDepth (ihdrC.2.getD 8 0))
        else if ihdrC.2.getD 9 0 = 2 ∨ ihdrC.2.getD 9 0 = 6 then
          (let bpp := if ihdrC.2.getD 9 0 = 2 then 3 else 4
          let idat := (((read_chunks_from png 8).filter
            (fun c => c.1 = idat_tag)).map (fun c => c.2)).flatten
          match decomp idat with
          | none => Except.error PngError.decompressError
          | some raw =>
            match unfilter_scanlines raw (read_be32 ihdrC.2 0)
                (read_be32 ihdrC.2 4) bpp with
            | .error (.tooSmall got expect) => .error (.idatTooSmall got expect)
            | .error (.badFilter f) => .error (.badFilterType f)
            | .ok pixels =>
              if bpp = 4 then
                .ok (PngImage.mk (read_be32 ihdrC.2 0) (read_be32 ihdrC.2 4)
                  pixels)
              else
                .ok (PngImage.mk (read_be32 ihdrC.2 0) (read_be32 ihdrC.2 4)
                  (expand_rgb pixels
                    (read_be32 ihdrC.2 0 * read_be32 ihdrC.2 4))))
        else Except.error (.unsupportedColorType (ihdrC.2.getD 9 0))) = .error e →
        read_png decomp png = .error e := by
      intro e he
      unfold read_png
      rw [hsig]
      simp only [Bool.not_eq_true, if_neg (by simp : ¬ (true = false))]
      rw [hihdr]
      simp only [if_pos h13]
      exact he
    refine ⟨?_, ?_, ?_, ?_⟩
    · intro hcf
      exact hbase _ (by rw [if_pos hcf])
    · intro hc hf hint
      exact hbase _ (by rw [if_neg (by omega), if_pos hint])
    · intro hc hf hint hd
      exact hbase _ (by rw [if_neg (by omega), if_neg (by omega), if_pos hd])
    · intro hc hf hint hd hc2 hc6
      exact hbase _
        (by rw [if_neg (by omega), if_neg (by omega), if_neg (by omega),
          if_neg (by omega)])
  · intro raw w h bpp hlt
    exact unfilter_scanlines_too_small raw w h bpp hlt
  · intro raw w h bpp z hrb hz hraw hok hbad
    unfold unfilter_scanlines
    rw [if_neg (by omega)]
    exact unfilter_rows_first_bad raw w bpp h 0 z [] (by omega) (by omega)
      (fun y' h1 h2 => hok y' h2) hbad hrb

/-- Witness for the amended C4: a color-type-7 header is rejected naming the
color type, a one-byte stream for an expected two bytes reports got/expected,
and filter-type byte 9 in a nonempty second row is rejected. -/
theorem c4_decode_errors_witness :
    read_png (fun _ => none)
      [137, 80, 78, 71, 13, 10, 26, 10, 0, 0, 0, 13, 73, 72, 68, 82,
       0, 0, 0, 0, 0, 0, 0, 0, 8, 7, 0, 0, 0, 0, 0, 0, 0]
      = .error (.unsupportedColorType 7) ∧
    unfilter_scanlines [0] 1 1 1 = .error (.tooSmall 1 2) ∧
    unfilter_scanlines [0, 7, 9, 3] 1 2 1 = .error (.badFilter 9) := by
  refine ⟨?_, ?_, ?_⟩
  · exact (c4_decode_errors.1 (fun _ => none)
      [137, 80, 78, 71, 13, 10, 26, 10, 0, 0, 0, 13, 73, 72, 68, 82,
       0, 0, 0, 0, 0, 0, 0, 0, 8, 7, 0, 0, 0, 0, 0, 0, 0]
      (ihdr_tag, [0, 0, 0, 0, 0, 0, 0, 0, 8, 7, 0, 0, 0])
      (by decide) (by decide) (by decide)).2.2.2
      (by decide) (by decide) (by decide) (by decide) (by decide) (by decide)
  · exact c4_decode_errors.2.1 [0] 1 1 1 (by decide)
  · exact c4_decode_errors.2.2 [0, 7, 9, 3] 1 2 1 1 (by decide) (by decide)
      (by decide) (by decide) (by decide)

/-- Counterexample to C8 as stated: a zero-area image with `width = 0` but
`height = 1` does not succeed — the border sampler's first index lookup
raises (`IndexError` on the empty buffer), so no image is returned at all. -/
theorem c8_counterexample :
    background_to_alpha_floodfill ⟨0, 1, []⟩ 28 2 = none := by decide

/-- C8 (amended): when BOTH dimensions are zero the border loops sample
nothing, no seeds are found, and the call returns the input image unchanged;
when exactly one dimension is zero the sampler's index lookup fails instead
and no image is returned (see the counterexample). -/
theorem c8_zero_area (img : PngImage) (tolerance max_seed_colors : Nat)
    (hw : img.width = 0) (hh : img.height = 0)
    (hlen : img.rgba.length = img.width * img.height * 4) :
    background_to_alpha_floodfill img tolerance max_seed_colors = some img := by
  obtain ⟨w, h, rgba⟩ := img
  simp only at hw hh hlen
  subst hw hh
  have hr : rgba = [] := by
    rw [List.length_eq_zero] at hlen
    · exact hlen
  subst hr
  show background_to_alpha_floodfill ⟨0, 0, []⟩ tolerance max_seed_colors
    = some ⟨0, 0, []⟩
  simp [background_to_alpha_floodfill, sample_border_colors, py_range_step,
    most_common, first_seen, sort_by_count, List.take_nil]

/-- Witness for the amended C8 at the 0×0 image. -/
theorem c8_zero_area_witness :
    background_to_alpha_floodfill ⟨0, 0, []⟩ 28 2 = some ⟨0, 0, []⟩ :=
  c8_zero_area ⟨0, 0, []⟩ 28 2 rfl rfl rfl

/-- C6: the background predicate holds iff some seed color is within squared
distance `tolerance²` (inclusive boundary): a squared distance of exactly
`tolerance²` is classified as background and, when every seed is at squared
distance at least `tolerance² + 1`, the pixel is not. -/
theorem c6_background_predicate (tolerance : Nat) (seeds : List Rgb)
    (rgb : Rgb) :
    (is_bg seeds (tolerance * tolerance) rgb = true ↔
      ∃ s ∈ seeds, color_dist_sq rgb s ≤ ((tolerance * tolerance : Nat) : Int)) ∧
    (∀ s ∈ seeds, color_dist_sq rgb s = ((tolerance * tolerance : Nat) : Int) →
      is_bg seeds (tolerance * tolerance) rgb = true) ∧
    ((∀ s ∈ seeds, ((tolerance * tolerance : Nat) : Int) + 1 ≤ color_dist_sq rgb s) →
      is_bg seeds (tolerance * tolerance) rgb = false) := by
  have hiff : is_bg seeds (tolerance * tolerance) rgb = true ↔
      ∃ s ∈ seeds, color_dist_sq rgb s ≤ ((tolerance * tolerance : Nat) : Int) := by
    unfold is_bg
    rw [List.any_eq_true]
    constructor
    · rintro ⟨s, hs, hd⟩
      exact ⟨s, hs, by simpa using hd⟩
    · rintro ⟨s, hs, hd⟩
      exact ⟨s, hs, by simpa using hd⟩
  refine ⟨hiff, ?_, ?_⟩
  · intro s hs hd
    exact hiff.mpr ⟨s, hs, le_of_eq hd⟩
  · intro hall
    cases hbg : is_bg seeds (tolerance * tolerance) rgb with
    | false => rfl
    | true =>
      obtain ⟨s, hs, hd⟩ := hiff.mp hbg
      have := hall s hs
      omega

/-- Witness for C6 at tolerance 28: squared distance 784 = 28² is background,
785 = 28² + 1 is not. -/
theorem c6_background_predicate_witness :
    is_bg [(0, 0, 0)] (28 * 28) (0, 0, 28) = true ∧
    is_bg [(0, 0, 0)] (28 * 28) (1, 0, 28) = false :=
  ⟨(c6_background_predicate 28 [(0, 0, 0)] (0, 0, 28)).2.1 (0, 0, 0)
      (by decide) (by decide),
    (c6_background_predicate 28 [(0, 0, 0)] (1, 0, 28)).2.2 (by decide)⟩

/-! ### The encoder's filter-0 scanline stream round-trips through the
reconstructor -/

lemma foldl_append_eq_flatten (f : Nat → List Nat) (l : List Nat)
    (init : List Nat) :
    l.foldl (fun out y => out ++ f y) init = init ++ (l.map f).flatten := by
  induction l generalizing init with
  | nil => simp
  | cons a l ih => simp [ih, List.flatten_cons]

lemma filter_none_eq_flatten (rgba : List Nat) (w h : Nat) :
    filter_none_rgba rgba w h =
      ((List.range h).map
        (fun y => 0 :: (rgba.drop (y * (w * 4))).take (w * 4))).flatten := by
  unfold filter_none_rgba
  rw [foldl_append_eq_flatten (fun y => 0 :: (rgba.drop (y * (w * 4))).take (w * 4))
    (List.range h) []]
  simp

lemma flatten_drop_uniform (s : Nat) :
    ∀ (k : Nat) (L : List (List Nat)), (∀ r ∈ L, r.length = s) →
    L.flatten.drop (k * s) = (L.drop k).flatten := by
  intro k
  induction k with
  | zero => intro L hL; simp
  | succ k ih =>
    intro L hL
    cases L with
    | nil => simp
    | cons r L' =>
      have hr : r.length = s := hL r (by simp)
      have hexp : (k + 1) * s = s + k * s := by ring
      rw [hexp, List.flatten_cons, ← List.drop_drop, List.drop_left' hr,
        ih L' (fun r2 h2 => hL r2 (List.mem_cons_of_mem r h2))]
      simp

lemma filter_none_row_length (rgba : List Nat) (w h : Nat)
    (hlen : rgba.length = w * h * 4) (y : Nat) (hy : y < h) :
    ((rgba.drop (y * (w * 4))).take (w * 4)).length = w * 4 := by
  simp only [List.length_take, List.length_drop]
  have h1 : (y + 1) * (w * 4) ≤ h * (w * 4) := mul_le_mul_right' (by omega) _
  have h2 : (y + 1) * (w * 4) = y * (w * 4) + w * 4 := by ring
  have h3 : h * (w * 4) = w * h * 4 := by ring
  omega

lemma sum_map_length_const (s : Nat) :
    ∀ L : List (List Nat), (∀ r ∈ L, r.length = s) →
    (L.map List.length).sum = L.length * s := by
  intro L
  induction L with
  | nil => simp
  | cons r L' ih =>
    intro hL
    rw [List.map_cons, List.sum_cons, hL r (List.mem_cons_self r L'),
      ih (fun r2 h2 => hL r2 (List.mem_cons_of_mem r h2)), List.length_cons,
      Nat.succ_mul]
    omega

lemma filter_none_length (rgba : List Nat) (w h : Nat)
    (hlen : rgba.length = w * h * 4) :
    (filter_none_rgba rgba w h).length = h * (1 + w * 4) := by
  rw [filter_none_eq_flatten, List.length_flatten]
  rw [sum_map_length_const (1 + w * 4) _ ?_]
  · simp
  · intro r hr
    simp only [List.mem_map, List.mem_range] at hr
    obtain ⟨y, hy, rfl⟩ := hr
    show (0 :: (rgba.drop (y * (w * 4))).take (w * 4)).length = 1 + w * 4
    rw [List.length_cons, filter_none_row_length rgba w h hlen y hy]
    omega

lemma filter_none_drop_row (rgba : List Nat) (w h : Nat)
    (hlen : rgba.length = w * h * 4) (y : Nat) (hy : y < h) :
    (filter_none_rgba rgba w h).drop (y * (1 + w * 4)) =
      (0 :: (rgba.drop (y * (w * 4))).take (w * 4)) ++
        (((List.range h).map
          (fun y => 0 :: (rgba.drop (y * (w * 4))).take (w * 4))).drop (y + 1)).flatten := by
  rw [filter_none_eq_flatten]
  have hcomm : y * (1 + w * 4) = y * (1 + w * 4) := rfl
  rw [flatten_drop_uniform (1 + w * 4) y]
  · have hylt : y < ((List.range h).map
        (fun y => 0 :: (rgba.drop (y * (w * 4))).take (w * 4))).length := by
      simpa using hy
    rw [List.drop_eq_getElem_cons hylt, List.flatten_cons]
    congr 1
    rw [List.getElem_map, List.getElem_range]
  · intro r hr
    simp only [List.mem_map, List.mem_range] at hr
    obtain ⟨y2, hy2, rfl⟩ := hr
    simp only [List.length_cons, filter_none_row_length rgba w h hlen y2 hy2]
    omega

lemma filter_none_filt_byte (rgba : List Nat) (w h : Nat)
    (hlen : rgba.length = w * h * 4) (y : Nat) (hy : y < h) :
    (filter_none_rgba rgba w h).getD (y * (1 + w * 4)) 0 = 0 := by
  have h0 : (filter_none_rgba rgba w h).getD (y * (1 + w * 4)) 0
      = ((filter_none_rgba rgba w h).drop (y * (1 + w * 4))).getD 0 0 := by
    rw [getD_drop_nat, Nat.add_zero]
  rw [h0, filter_none_drop_row rgba w h hlen y hy]
  rfl

lemma filter_none_src (rgba : List Nat) (w h : Nat)
    (hlen : rgba.length = w * h * 4) (y : Nat) (hy : y < h) :
    ((filter_none_rgba rgba w h).drop (y * (1 + w * 4) + 1)).take (w * 4) =
      (rgba.drop (y * (w * 4))).take (w * 4) := by
  have h1 : (filter_none_rgba rgba w h).drop (y * (1 + w * 4) + 1)
      = ((filter_none_rgba rgba w h).drop (y * (1 + w * 4))).drop 1 := by
    rw [List.drop_drop]
  rw [h1, filter_none_drop_row rgba w h hlen y hy]
  simp only [List.cons_append, List.drop_succ_cons, List.drop_zero]
  exact List.take_left' (filter_none_row_length rgba w h hlen y hy)

lemma unfilter_rows_filter_none (rgba : List Nat) (w h : Nat)
    (hlen : rgba.length = w * h * 4) :
    ∀ rem y, y + rem = h →
    unfilter_rows (filter_none_rgba rgba w h) w 4 rem y
      (rgba.take (y * (w * 4))) = .ok (rgba.take (h * (w * 4))) := by
  intro rem
  induction rem with
  | zero =>
    intro y hy
    show Except.ok _ = _
    rw [show y = h by omega]
  | succ rem ih =>
    intro y hy
    have hylt : y < h := by omega
    show unfilter_rows (filter_none_rgba rgba w h) w 4 (rem + 1) y _ = _
    simp only [unfilter_rows, filter_none_filt_byte rgba w h hlen y hylt,
      if_pos rfl, filter_none_src rgba w h hlen y hylt]
    have hmerge : rgba.take (y * (w * 4)) ++ (rgba.drop (y * (w * 4))).take (w * 4)
        = rgba.take ((y + 1) * (w * 4)) := by
      rw [show (y + 1) * (w * 4) = y * (w * 4) + w * 4 by ring, List.take_add]
    rw [hmerge]
    exact ih (y + 1) (by omega)

lemma unfilter_filter_none (rgba : List Nat) (w h : Nat)
    (hlen : rgba.length = w * h * 4) :
    unfilter_scanlines (filter_none_rgba rgba w h) w h 4 = .ok rgba := by
  unfold unfilter_scanlines
  rw [if_neg (by rw [filter_none_length rgba w h hlen]; omega)]
  have h0 : ([] : List Nat) = rgba.take (0 * (w * 4)) := by simp
  rw [h0, unfilter_rows_filter_none rgba w h hlen h 0 (by omega)]
  rw [List.take_of_length_le (by rw [hlen]; ring_nf; omega)]

/-! ### Chunk stream parsing of encoder output -/

lemma length_be32 (n : Nat) : (be32 n).length = 4 := rfl

lemma getD_be32 (n : Nat) :
    (be32 n).getD 0 0 = n / 2 ^ 24 % 256 ∧ (be32 n).getD 1 0 = n / 2 ^ 16 % 256 ∧
    (be32 n).getD 2 0 = n / 2 ^ 8 % 256 ∧ (be32 n).getD 3 0 = n % 256 := by
  refine ⟨rfl, rfl, rfl, rfl⟩

lemma read_be32_be32 (n : Nat) (rest : List Nat) (hn : n < 2 ^ 32) :
    read_be32 (be32 n ++ rest) 0 = n := by
  unfold read_be32
  rw [getD_append_lt _ _ 0 (by simp [be32]), getD_append_lt _ _ 1 (by simp [be32]),
    getD_append_lt _ _ 2 (by simp [be32]), getD_append_lt _ _ 3 (by simp [be32])]
  show n / 2 ^ 24 % 256 * 2 ^ 24 + n / 2 ^ 16 % 256 * 2 ^ 16 +
    n / 2 ^ 8 % 256 * 2 ^ 8 + n % 256 = n
  omega

lemma read_be32_drop (l : List Nat) (i : Nat) :
    read_be32 (l.drop i) 0 = read_be32 l i := by
  unfold read_be32
  rw [getD_drop_nat, getD_drop_nat, getD_drop_nat, getD_drop_nat, Nat.add_zero]

lemma read_chunks_cons (png : List Nat) (fl i : Nat) (t d crc4 rest : List Nat)
    (ht : t.length = 4) (hc : crc4.length = 4) (hne : t ≠ iend_tag)
    (hd : d.length < 2 ^ 32)
    (hdrop : png.drop i = be32 d.length ++ (t ++ (d ++ (crc4 ++ rest)))) :
    read_chunks_fuel png (fl + 1) i =
      (t, d) :: read_chunks_fuel png fl (i + 8 + d.length + 4) := by
  have hdlen : (png.drop i).length = 4 + (4 + (d.length + (4 + rest.length))) := by
    rw [hdrop]
    simp [be32, ht, hc]
    omega
  rw [List.length_drop] at hdlen
  have hi : i < png.length := by omega
  have h8 : ¬ (i + 8 > png.length) := by omega
  have hclen : read_be32 png i = d.length := by
    rw [← read_be32_drop, hdrop, read_be32_be32 _ _ hd]
  have hctype : (png.drop (i + 4)).take 4 = t := by
    have h4 : png.drop (i + 4) = (png.drop i).drop 4 := by
      rw [List.drop_drop]
    rw [h4, hdrop, List.drop_left' (length_be32 d.length), List.take_left' ht]
  have hdata : (png.drop (i + 8)).take d.length = d := by
    have h8' : png.drop (i + 8) = (png.drop i).drop 8 := by
      rw [List.drop_drop]
    have hassoc : be32 d.length ++ (t ++ (d ++ (crc4 ++ rest)))
        = (be32 d.length ++ t) ++ (d ++ (crc4 ++ rest)) := by
      simp [List.append_assoc]
    rw [h8', hdrop, hassoc,
      List.drop_left' (by simp [be32, ht] : (be32 d.length ++ t).length = 8),
      List.take_left' rfl]
  show read_chunks_fuel png (fl + 1) i = _
  simp only [read_chunks_fuel, if_pos hi, if_neg h8, hclen, hctype, hdata,
    if_neg hne]

lemma read_chunks_iend (png : List Nat) (fl i : Nat) (crc4 : List Nat)
    (hc : crc4.length = 4)
    (hdrop : png.drop i = be32 0 ++ (iend_tag ++ crc4)) :
    read_chunks_fuel png (fl + 1) i = [(iend_tag, [])] := by
  have hdlen : (png.drop i).length = 4 + (4 + 4) := by
    rw [hdrop]
    simp [be32, hc, iend_tag]
  rw [List.length_drop] at hdlen
  have hi : i < png.length := by omega
  have h8 : ¬ (i + 8 > png.length) := by omega
  have hclen : read_be32 png i = 0 := by
    rw [← read_be32_drop, hdrop]
    exact read_be32_be32 0 _ (by omega)
  have hctype : (png.drop (i + 4)).take 4 = iend_tag := by
    have h4 : png.drop (i + 4) = (png.drop i).drop 4 := by
      rw [List.drop_drop]
    rw [h4, hdrop, List.drop_left' (length_be32 0),
      List.take_left' (by decide : (iend_tag : List Nat).length = 4)]
  show read_chunks_fuel png (fl + 1) i = _
  simp [read_chunks_fuel, if_pos hi, if_neg h8, hclen, hctype, List.take_zero]

lemma ihdr_data_fields (w h : Nat) (hw : w < 2 ^ 32) (hh : h < 2 ^ 32) :
    read_be32 (be32 w ++ be32 h ++ [8, 6, 0, 0, 0]) 0 = w ∧
    read_be32 (be32 w ++ be32 h ++ [8, 6, 0, 0, 0]) 4 = h ∧
    (be32 w ++ be32 h ++ [8, 6, 0, 0, 0]).getD 8 0 = 8 ∧
    (be32 w ++ be32 h ++ [8, 6, 0, 0, 0]).getD 9 0 = 6 ∧
    (be32 w ++ be32 h ++ [8, 6, 0, 0, 0]).getD 10 0 = 0 ∧
    (be32 w ++ be32 h ++ [8, 6, 0, 0, 0]).getD 11 0 = 0 ∧
    (be32 w ++ be32 h ++ [8, 6, 0, 0, 0]).getD 12 0 = 0 ∧
    (be32 w ++ be32 h ++ [8, 6, 0, 0, 0]).length = 13 := by
  have hassoc : be32 w ++ be32 h ++ [8, 6, 0, 0, 0]
      = be32 w ++ (be32 h ++ [8, 6, 0, 0, 0]) := by
    simp [List.append_assoc]
  refine ⟨?_, ?_, ?_, ?_, ?_, ?_, ?_, by simp [be32]⟩
  · rw [hassoc, read_be32_be32 w _ hw]
  · show read_be32 ((be32 w ++ be32 h) ++ [8, 6, 0, 0, 0]) 4 = h
    unfold read_be32
    rw [getD_append_lt _ _ 4 (by simp [be32]), getD_append_lt _ _ 5 (by simp [be32]),
      getD_append_lt _ _ 6 (by simp [be32]), getD_append_lt _ _ 7 (by simp [be32]),
      List.getD_append_right _ _ 0 4 (by simp [be32]),
      List.getD_append_right _ _ 0 5 (by simp [be32]),
      List.getD_append_right _ _ 0 6 (by simp [be32]),
      List.getD_append_right _ _ 0 7 (by simp [be32])]
    simp only [be32, List.length_cons, List.length_nil, List.getD_cons_zero,
      List.getD_cons_succ]
    norm_num
    omega
  · show ((be32 w ++ be32 h) ++ [8, 6, 0, 0, 0]).getD 8 0 = 8
    rw [List.getD_append_right _ _ 0 8 (by simp [be32])]
    simp [be32]
  · show ((be32 w ++ be32 h) ++ [8, 6, 0, 0, 0]).getD 9 0 = 6
    rw [List.getD_append_right _ _ 0 9 (by simp [be32])]
    simp [be32]
  · show ((be32 w ++ be32 h) ++ [8, 6, 0, 0, 0]).getD 10 0 = 0
    rw [List.getD_append_right _ _ 0 10 (by simp [be32])]
    simp [be32]
  · show ((be32 w ++ be32 h) ++ [8, 6, 0, 0, 0]).getD 11 0 = 0
    rw [List.getD_append_right _ _ 0 11 (by simp [be32])]
    simp [be32]
  · show ((be32 w ++ be32 h) ++ [8, 6, 0, 0, 0]).getD 12 0 = 0
    rw [List.getD_append_right _ _ 0 12 (by simp [be32])]
    simp [be32]

/-- C1: encode-then-decode is the identity on every well-formed image
(buffer length `width * height * 4`, dimensions below 2^32 — true of every
image `decode` or `removeBackground` can produce, see C9).  The external
zlib pair is abstracted: any `comp`/`decomp` with `decomp (comp s) = some s`
on the emitted scanline stream (and a compressed size below 2^32, as
`struct.pack` requires) round-trips, and the CRC function is irrelevant
because the decoder skips checksums. -/
theorem c1_roundtrip (crc : List Nat → Nat) (comp : List Nat → List Nat)
    (decomp : List Nat → Option (List Nat)) (img : PngImage)
    (hinv : decomp (comp (filter_none_rgba img.rgba img.width img.height))
      = some (filter_none_rgba img.rgba img.width img.height))
    (hlen : img.rgba.length = img.width * img.height * 4)
    (hw : img.width < 2 ^ 32) (hh : img.height < 2 ^ 32)
    (hcomp : (comp (filter_none_rgba img.rgba img.width img.height)).length
      < 2 ^ 32) :
    read_png decomp (write_png_rgba crc comp img) = .ok img := by
  obtain ⟨w, h, rgba⟩ := img
  simp only at hinv hlen hw hh hcomp
  have hihdrlen : (be32 w ++ be32 h ++ [8, 6, 0, 0, 0]).length = 13 := by
    simp [be32]
  have hpng : write_png_rgba crc comp ⟨w, h, rgba⟩ =
      png_signature ++
        (chunk_bytes crc ihdr_tag (be32 w ++ be32 h ++ [8, 6, 0, 0, 0]) ++
          (chunk_bytes crc idat_tag (comp (filter_none_rgba rgba w h)) ++
            chunk_bytes crc iend_tag [])) := by
    simp [write_png_rgba, List.append_assoc]
  set P := write_png_rgba crc comp ⟨w, h, rgba⟩ with hP
  have hlc1 : (chunk_bytes crc ihdr_tag (be32 w ++ be32 h ++ [8, 6, 0, 0, 0])).length
      = 25 := by
    simp [chunk_bytes, be32, ihdr_tag]
  have hlc2 : (chunk_bytes crc idat_tag (comp (filter_none_rgba rgba w h))).length
      = 12 + (comp (filter_none_rgba rgba w h)).length := by
    simp [chunk_bytes, be32, idat_tag]
    omega
  have hlc3 : (chunk_bytes crc iend_tag []).length = 12 := by
    simp [chunk_bytes, be32, iend_tag]
  have hPlen : P.length = 57 + (comp (filter_none_rgba rgba w h)).length := by
    rw [hpng]
    simp only [List.length_append, hlc1, hlc2, hlc3]
    simp [png_signature]
    omega
  have hchunks : read_chunks_from P 8 =
      [(ihdr_tag, be32 w ++ be32 h ++ [8, 6, 0, 0, 0]),
       (idat_tag, comp (filter_none_rgba rgba w h)), (iend_tag, [])] := by
    unfold read_chunks_from
    have hdrop8 : P.drop 8 =
        be32 (be32 w ++ be32 h ++ [8, 6, 0, 0, 0]).length ++
          (ihdr_tag ++ ((be32 w ++ be32 h ++ [8, 6, 0, 0, 0]) ++
            (be32 (crc (ihdr_tag ++ (be32 w ++ be32 h ++ [8, 6, 0, 0, 0])) % 2 ^ 32) ++
              (chunk_bytes crc idat_tag (comp (filter_none_rgba rgba w h)) ++
                chunk_bytes crc iend_tag [])))) := by
      rw [hpng, List.drop_left' (by decide : (png_signature : List Nat).length = 8)]
      simp [chunk_bytes, List.append_assoc]
    have hstep1 := read_chunks_cons P P.length 8 ihdr_tag
      (be32 w ++ be32 h ++ [8, 6, 0, 0, 0])
      (be32 (crc (ihdr_tag ++ (be32 w ++ be32 h ++ [8, 6, 0, 0, 0])) % 2 ^ 32))
      (chunk_bytes crc idat_tag (comp (filter_none_rgba rgba w h)) ++
        chunk_bytes crc iend_tag [])
      (by decide) (length_be32 _) (by decide) (by rw [hihdrlen]; norm_num)
      hdrop8
    rw [hstep1]
    have hidx1 : 8 + 8 + (be32 w ++ be32 h ++ [8, 6, 0, 0, 0]).length + 4 = 33 := by
      rw [hihdrlen]
    rw [hidx1]
    obtain ⟨m1, hm1⟩ : ∃ m1, P.length = m1 + 1 := ⟨P.length - 1, by omega⟩
    rw [hm1]
    have hdrop33 : P.drop 33 =
        be32 (comp (filter_none_rgba rgba w h)).length ++
          (idat_tag ++ ((comp (filter_none_rgba rgba w h)) ++
            (be32 (crc (idat_tag ++ comp (filter_none_rgba rgba w h)) % 2 ^ 32) ++
              chunk_bytes crc iend_tag []))) := by
      have hre : P = (png_signature ++
          chunk_bytes crc ihdr_tag (be32 w ++ be32 h ++ [8, 6, 0, 0, 0])) ++
          (chunk_bytes crc idat_tag (comp (filter_none_rgba rgba w h)) ++
            chunk_bytes crc iend_tag []) := by
        rw [hpng]
        simp [List.append_assoc]
      rw [hre, List.drop_left' (by
        rw [List.length_append, hlc1]
        rfl :
        (png_signature ++ chunk_bytes crc ihdr_tag
          (be32 w ++ be32 h ++ [8, 6, 0, 0, 0])).length = 33)]
      simp [chunk_bytes, List.append_assoc]
    have hstep2 := read_chunks_cons P m1 33 idat_tag
      (comp (filter_none_rgba rgba w h))
      (be32 (crc (idat_tag ++ comp (filter_none_rgba rgba w h)) % 2 ^ 32))
      (chunk_bytes crc iend_tag [])
      (by decide) (length_be32 _) (by decide) hcomp hdrop33
    rw [hstep2]
    obtain ⟨m2, hm2⟩ : ∃ m2, m1 = m2 + 1 := ⟨m1 - 1, by omega⟩
    rw [hm2]
    have hdrop45 : P.drop (33 + 8 + (comp (filter_none_rgba rgba w h)).length + 4) =
        be32 0 ++ (iend_tag ++
          (be32 (crc (iend_tag ++ []) % 2 ^ 32))) := by
      have hre : P = ((png_signature ++
          chunk_bytes crc ihdr_tag (be32 w ++ be32 h ++ [8, 6, 0, 0, 0])) ++
          chunk_bytes crc idat_tag (comp (filter_none_rgba rgba w h))) ++
          chunk_bytes crc iend_tag [] := by
        rw [hpng]
        simp [List.append_assoc]
      rw [hre, List.drop_left' (by
        rw [List.length_append, List.length_append, hlc1, hlc2]
        have hs8 : (png_signature : List Nat).length = 8 := rfl
        omega :
        ((png_signature ++ chunk_bytes crc ihdr_tag
          (be32 w ++ be32 h ++ [8, 6, 0, 0, 0])) ++
          chunk_bytes crc idat_tag (comp (filter_none_rgba rgba w h))).length
          = 33 + 8 + (comp (filter_none_rgba rgba w h)).length + 4)]
      simp [chunk_bytes, List.append_assoc, be32]
    have hstep3 := read_chunks_iend P m2
      (33 + 8 + (comp (filter_none_rgba rgba w h)).length + 4)
      (be32 (crc (iend_tag ++ []) % 2 ^ 32)) (length_be32 _) hdrop45
    rw [hstep3]
  obtain ⟨hf0, hf4, hf8, hf9, hf10, hf11, hf12, _⟩ := ihdr_data_fields w h hw hh
  have hsig : png_signature.isPrefixOf P = true := by
    rw [List.isPrefixOf_iff_prefix, hpng]
    exact List.prefix_append _ _
  have hg0 : read_be32 (be32 w ++ (be32 h ++ [8, 6, 0, 0, 0])) 0 = w := by
    rw [← List.append_assoc]; exact hf0
  have hg4 : read_be32 (be32 w ++ (be32 h ++ [8, 6, 0, 0, 0])) 4 = h := by
    rw [← List.append_assoc]; exact hf4
  have hg8 : (be32 w ++ (be32 h ++ [8, 6, 0, 0, 0]))[8]? = some 8 := by
    simp [List.getElem?_append_right, be32]
  have hg9 : (be32 w ++ (be32 h ++ [8, 6, 0, 0, 0]))[9]? = some 6 := by
    simp [List.getElem?_append_right, be32]
  have hg10 : (be32 w ++ (be32 h ++ [8, 6, 0, 0, 0]))[10]? = some 0 := by
    simp [List.getElem?_append_right, be32]
  have hg11 : (be32 w ++ (be32 h ++ [8, 6, 0, 0, 0]))[11]? = some 0 := by
    simp [List.getElem?_append_right, be32]
  have hg12 : (be32 w ++ (be32 h ++ [8, 6, 0, 0, 0]))[12]? = some 0 := by
    simp [List.getElem?_append_right, be32]
  unfold read_png
  rw [if_neg (by simp [hsig]), hchunks]
  simp [hg0, hg4, hg8, hg9, hg10, hg11, hg12, length_be32, hinv,
    unfilter_filter_none rgba w h hlen, ihdr_tag, idat_tag, iend_tag]

/-- Witness for C1 at a concrete 1x1 image with the identity codec. -/
theorem c1_roundtrip_witness :
    read_png (fun l => some l)
      (write_png_rgba (fun _ => 0) (fun l => l) ⟨1, 1, [1, 2, 3, 4]⟩) =
      .ok ⟨1, 1, [1, 2, 3, 4]⟩ :=
  c1_roundtrip (fun _ => 0) (fun l => l) (fun l => some l) ⟨1, 1, [1, 2, 3, 4]⟩
    rfl (by decide) (by decide) (by decide) (by decide)

/-! ### Flood-fill push and measure lemmas -/

lemma getD_set_ne_bool (l : List Bool) (i j : Nat) (v : Bool) (h : i ≠ j) :
    (l.set i v).getD j false = l.getD j false := by
  simp [List.getD_eq_getElem?_getD, List.getElem?_set_ne h]

lemma getD_set_self_bool (l : List Bool) (i : Nat) (v : Bool)
    (h : i < l.length) :
    (l.set i v).getD i false = v := by
  simp [List.getD_eq_getElem?_getD, List.getElem?_set_self h]

lemma fill_push_rgba (w : Nat) (s : FillState) (p : Nat × Nat) :
    (fill_push w s p).rgba = s.rgba := by
  unfold fill_push
  split <;> rfl

lemma fill_push_vis_length (w : Nat) (s : FillState) (p : Nat × Nat) :
    (fill_push w s p).visited.length = s.visited.length := by
  unfold fill_push
  split
  · rfl
  · simp

lemma fill_push_vis_mono (w : Nat) (s : FillState) (p : Nat × Nat) (j : Nat)
    (h : s.visited.getD j false = true) :
    (fill_push w s p).visited.getD j false = true := by
  unfold fill_push
  split
  · exact h
  · show (s.visited.set (pix_idx w p) true).getD j false = true
    by_cases hj : pix_idx w p = j
    · subst hj
      rcases Nat.lt_or_ge (pix_idx w p) s.visited.length with hlt | hge
      · rw [getD_set_self_bool _ _ _ hlt]
      · rw [List.set_eq_of_length_le hge]
        exact h
    · rw [getD_set_ne_bool _ _ _ _ hj]
      exact h

lemma fill_push_vis_self (w : Nat) (s : FillState) (p : Nat × Nat)
    (h : pix_idx w p < s.visited.length) :
    (fill_push w s p).visited.getD (pix_idx w p) false = true := by
  unfold fill_push
  split
  · next hv => exact hv
  · show (s.visited.set (pix_idx w p) true).getD (pix_idx w p) false = true
    rw [getD_set_self_bool _ _ _ h]

lemma fill_push_vis_new (w : Nat) (s : FillState) (p : Nat × Nat) (j : Nat)
    (h : (fill_push w s p).visited.getD j false = true) :
    s.visited.getD j false = true ∨ j = pix_idx w p := by
  by_cases hj : pix_idx w p = j
  · exact Or.inr hj.symm
  · left
    unfold fill_push at h
    split at h
    · exact h
    · rw [getD_set_ne_bool _ _ _ _ hj] at h
      exact h

lemma fill_push_stack_sub (w : Nat) (s : FillState) (p q : Nat × Nat)
    (h : q ∈ (fill_push w s p).stack) : q = p ∨ q ∈ s.stack := by
  unfold fill_push at h
  split at h
  · exact Or.inr h
  · rcases List.mem_cons.mp h with h | h
    · exact Or.inl h
    · exact Or.inr h

lemma fill_push_stack_grow (w : Nat) (s : FillState) (p q : Nat × Nat)
    (h : q ∈ s.stack) : q ∈ (fill_push w s p).stack := by
  unfold fill_push
  split
  · exact h
  · exact List.mem_cons_of_mem _ h

lemma fill_push_pushed_in_stack (w : Nat) (s : FillState) (p : Nat × Nat)
    (h : s.visited.getD (pix_idx w p) false = false) :
    p ∈ (fill_push w s p).stack := by
  unfold fill_push
  rw [if_neg (by rw [h]; exact Bool.false_ne_true)]
  exact List.mem_cons_self _ _

lemma count_false_set_true (l : List Bool) :
    ∀ i, i < l.length → l.getD i false = false →
    (l.set i true).count false + 1 = l.count false := by
  induction l with
  | nil => intro i h; simp at h
  | cons b t ih =>
    intro i hi hf
    cases i with
    | zero =>
      have hb : b = false := by simpa using hf
      subst hb
      simp [List.count_cons]
    | succ i =>
      have hih := ih i (by simpa using hi) (by simpa using hf)
      show (b :: t.set i true).count false + 1 = (b :: t).count false
      cases b <;> simp [List.count_cons] <;> omega

lemma count_set_true_le (l : List Bool) : ∀ i,
    (l.set i true).count false ≤ l.count false := by
  induction l with
  | nil => intro i; simp
  | cons b t ih =>
    intro i
    cases i with
    | zero => cases b <;> simp [List.count_cons]
    | succ i =>
      have hih := ih i
      show (b :: t.set i true).count false ≤ (b :: t).count false
      cases b <;> simp [List.count_cons] <;> omega

lemma fill_push_measure (w : Nat) (s : FillState) (p : Nat × Nat)
    (h : pix_idx w p < s.visited.length) :
    fill_measure (fill_push w s p) ≤ fill_measure s := by
  unfold fill_push fill_measure
  split
  · exact le_refl _
  · next hv =>
    have hf : s.visited.getD (pix_idx w p) false = false := by
      cases hvv : s.visited.getD (pix_idx w p) false
      · rfl
      · exact absurd hvv hv
    have := count_false_set_true s.visited (pix_idx w p) h hf
    simp only [List.length_cons]
    omega

/-! ### Folding `fill_push` over a list of pixels -/

lemma foldl_push_rgba (w : Nat) : ∀ (L : List (Nat × Nat)) (s : FillState),
    (L.foldl (fill_push w) s).rgba = s.rgba := by
  intro L
  induction L with
  | nil => intro s; rfl
  | cons q L ih =>
    intro s
    rw [List.foldl_cons, ih, fill_push_rgba]

lemma foldl_push_vis_length (w : Nat) : ∀ (L : List (Nat × Nat)) (s : FillState),
    (L.foldl (fill_push w) s).visited.length = s.visited.length := by
  intro L
  induction L with
  | nil => intro s; rfl
  | cons q L ih =>
    intro s
    rw [List.foldl_cons, ih, fill_push_vis_length]

lemma foldl_push_vis_mono (w : Nat) : ∀ (L : List (Nat × Nat)) (s : FillState)
    (j : Nat), s.visited.getD j false = true →
    (L.foldl (fill_push w) s).visited.getD j false = true := by
  intro L
  induction L with
  | nil => intro s j h; exact h
  | cons q L ih =>
    intro s j h
    rw [List.foldl_cons]
    exact ih _ j (fill_push_vis_mono w s q j h)

lemma foldl_push_stack_grow (w : Nat) : ∀ (L : List (Nat × Nat))
    (s : FillState) (r : Nat × Nat), r ∈ s.stack →
    r ∈ (L.foldl (fill_push w) s).stack := by
  intro L
  induction L with
  | nil => intro s r h; exact h
  | cons q L ih =>
    intro s r h
    rw [List.foldl_cons]
    exact ih _ r (fill_push_stack_grow w s q r h)

lemma foldl_push_stack_sub (w : Nat) : ∀ (L : List (Nat × Nat))
    (s : FillState) (r : Nat × Nat), r ∈ (L.foldl (fill_push w) s).stack →
    r ∈ s.stack ∨ r ∈ L := by
  intro L
  induction L with
  | nil => intro s r h; exact Or.inl h
  | cons q L ih =>
    intro s r h
    rw [List.foldl_cons] at h
    rcases ih _ r h with h2 | h2
    · rcases fill_push_stack_sub w s q r h2 with h3 | h3
      · exact Or.inr (by simp [h3])
      · exact Or.inl h3
    · exact Or.inr (List.mem_cons_of_mem _ h2)

lemma foldl_push_vis_elem (w : Nat) : ∀ (L : List (Nat × Nat))
    (s : FillState) (q : Nat × Nat), q ∈ L →
    pix_idx w q < s.visited.length →
    (L.foldl (fill_push w) s).visited.getD (pix_idx w q) false = true := by
  intro L
  induction L with
  | nil => intro s q h; simp at h
  | cons q0 L ih =>
    intro s q hq hlen
    rw [List.foldl_cons]
    rcases List.mem_cons.mp hq with hq | hq
    · subst hq
      exact foldl_push_vis_mono w L _ _ (fill_push_vis_self w s q hlen)
    · exact ih _ q hq (by rw [fill_push_vis_length]; exact hlen)

lemma foldl_push_vis_new (w : Nat) : ∀ (L : List (Nat × Nat))
    (s : FillState) (j : Nat),
    (L.foldl (fill_push w) s).visited.getD j false = true →
    s.visited.getD j false = true ∨
    ∃ q ∈ L, j = pix_idx w q ∧ q ∈ (L.foldl (fill_push w) s).stack := by
  intro L
  induction L with
  | nil => intro s j h; exact Or.inl h
  | cons q0 L ih =>
    intro s j h
    rw [List.foldl_cons] at h ⊢
    rcases ih _ j h with h2 | h2
    · rcases fill_push_vis_new w s q0 j h2 with h3 | h3
      · exact Or.inl h3
      · by_cases hv : s.visited.getD (pix_idx w q0) false = true
        · exact Or.inl (h3 ▸ hv)
        · right
          refine ⟨q0, by simp, h3, ?_⟩
          refine foldl_push_stack_grow w L _ q0 ?_
          exact fill_push_pushed_in_stack w s q0 (by
            cases hvv : s.visited.getD (pix_idx w q0) false
            · rfl
            · exact absurd hvv hv)
    · obtain ⟨q, hqL, hqj, hqs⟩ := h2
      exact Or.inr ⟨q, List.mem_cons_of_mem _ hqL, hqj, hqs⟩

lemma foldl_push_measure (w : Nat) : ∀ (L : List (Nat × Nat)) (s : FillState),
    (∀ q ∈ L, pix_idx w q < s.visited.length) →
    fill_measure (L.foldl (fill_push w) s) ≤ fill_measure s := by
  intro L
  induction L with
  | nil => intro s h; exact le_refl _
  | cons q L ih =>
    intro s h
    rw [List.foldl_cons]
    refine le_trans (ih _ ?_) (fill_push_measure w s q (h q (by simp)))
    intro r hr
    rw [fill_push_vis_length]
    exact h r (List.mem_cons_of_mem _ hr)

/-! ### The loop body preserves the invariant -/

lemma fill_step_eq (w h : Nat) (seeds : List Rgb) (tol_sq : Nat)
    (s : FillState) (p : Nat × Nat) :
    fill_step w h seeds tol_sq s p =
      if is_bg seeds tol_sq (s.rgba.getD (4 * pix_idx w p) 0,
          s.rgba.getD (4 * pix_idx w p + 1) 0,
          s.rgba.getD (4 * pix_idx w p + 2) 0) then
        (step_nbrs w h p).foldl (fill_push w)
          ⟨s.rgba.set (4 * pix_idx w p + 3) 0, s.visited, s.stack⟩
      else s := by
  unfold fill_step step_nbrs
  by_cases hbg : is_bg seeds tol_sq (s.rgba.getD (4 * pix_idx w p) 0,
      s.rgba.getD (4 * pix_idx w p + 1) 0, s.rgba.getD (4 * pix_idx w p + 2) 0)
  · rw [if_pos hbg, if_pos hbg]
    by_cases h1 : 0 < p.1 <;> by_cases h2 : p.1 + 1 < w <;>
      by_cases h3 : 0 < p.2 <;> by_cases h4 : p.2 + 1 < h <;>
      simp [h1, h2, h3, h4]
  · rw [if_neg hbg, if_neg hbg]

lemma step_nbrs_in_bounds (w h : Nat) (p q : Nat × Nat)
    (hp : in_bounds w h p) (hq : q ∈ step_nbrs w h p) : in_bounds w h q := by
  obtain ⟨hp1, hp2⟩ := hp
  unfold step_nbrs at hq
  simp only [List.mem_append] at hq
  unfold in_bounds
  rcases hq with hq | hq | hq | hq <;>
    (split at hq <;> simp at hq) <;>
    (subst hq; refine ⟨?_, ?_⟩ <;> simp <;> omega)

lemma step_nbrs_adjacent (w h : Nat) (p q : Nat × Nat)
    (hq : q ∈ step_nbrs w h p) : adjacent p q := by
  unfold step_nbrs at hq
  simp only [List.mem_append] at hq
  unfold adjacent
  rcases hq with hq | hq | hq | hq <;>
    (split at hq <;> simp at hq) <;> subst hq
  · exact Or.inr ⟨by simp, Or.inl (by simp; omega)⟩
  · exact Or.inr ⟨by simp, Or.inr (by simp)⟩
  · exact Or.inl ⟨by simp, Or.inl (by simp; omega)⟩
  · exact Or.inl ⟨by simp, Or.inr (by simp)⟩

lemma adj_mem_step_nbrs (w h : Nat) (p q : Nat × Nat)
    (hadj : adjacent p q) (hq : in_bounds w h q) : q ∈ step_nbrs w h p := by
  obtain ⟨hq1, hq2⟩ := hq
  unfold step_nbrs
  simp only [List.mem_append]
  unfold adjacent at hadj
  rcases hadj with ⟨hx, hy | hy⟩ | ⟨hy, hx | hx⟩
  · -- p.2 = q.2 + 1: q is the up neighbor
    refine Or.inr (Or.inr (Or.inl ?_))
    rw [if_pos (by omega : 0 < p.2)]
    have : q = (p.1, p.2 - 1) := by
      cases q
      simp at hx hy ⊢
      omega
    simp [this]
  · -- q.2 = p.2 + 1: down neighbor
    refine Or.inr (Or.inr (Or.inr ?_))
    rw [if_pos (by omega : p.2 + 1 < h)]
    have : q = (p.1, p.2 + 1) := by
      cases q
      simp at hx hy ⊢
      omega
    simp [this]
  · -- p.1 = q.1 + 1: left neighbor
    refine Or.inl ?_
    rw [if_pos (by omega : 0 < p.1)]
    have : q = (p.1 - 1, p.2) := by
      cases q
      simp at hx hy ⊢
      omega
    simp [this]
  · -- q.1 = p.1 + 1: right neighbor
    refine Or.inr (Or.inl ?_)
    rw [if_pos (by omega : p.1 + 1 < w)]
    have : q = (p.1 + 1, p.2) := by
      cases q
      simp at hx hy ⊢
      omega
    simp [this]

lemma pix_idx_lt (w h : Nat) (p : Nat × Nat) (hp : in_bounds w h p) :
    pix_idx w p < w * h := by
  obtain ⟨h1, h2⟩ := hp
  unfold pix_idx
  have hle : p.2 + 1 ≤ h := h2
  calc p.2 * w + p.1 < p.2 * w + w := by omega
  _ = (p.2 + 1) * w := by ring
  _ ≤ h * w := mul_le_mul_right' hle w
  _ = w * h := by ring

lemma pix_idx_inj (w h : Nat) (p q : Nat × Nat) (hp : in_bounds w h p)
    (hq : in_bounds w h q) (heq : pix_idx w p = pix_idx w q) : p = q := by
  obtain ⟨hp1, hp2⟩ := hp
  obtain ⟨hq1, hq2⟩ := hq
  unfold pix_idx at heq
  have hw : 0 < w := by omega
  have h2 : p.2 = q.2 := by
    rcases Nat.lt_trichotomy p.2 q.2 with hlt | heq2 | hgt
    · exfalso
      have : (p.2 + 1) * w ≤ q.2 * w := mul_le_mul_right' (by omega) w
      have hx : (p.2 + 1) * w = p.2 * w + w := by ring
      omega
    · exact heq2
    · exfalso
      have : (q.2 + 1) * w ≤ p.2 * w := mul_le_mul_right' (by omega) w
      have hx : (q.2 + 1) * w = q.2 * w + w := by ring
      omega
  have h1 : p.1 = q.1 := by
    rw [h2] at heq
    omega
  cases p
  cases q
  simp at h1 h2 ⊢
  exact ⟨h1, h2⟩

lemma rgb_at_frame (w : Nat) (rgba rgba0 : List Nat)
    (hframe : ∀ i, i % 4 ≠ 3 → rgba.getD i 0 = rgba0.getD i 0) (p : Nat × Nat) :
    rgb_at rgba w p = rgb_at rgba0 w p := by
  unfold rgb_at
  rw [hframe (4 * pix_idx w p) (by omega), hframe (4 * pix_idx w p + 1) (by omega),
    hframe (4 * pix_idx w p + 2) (by omega)]

lemma getD_set_ne_nat (l : List Nat) (i j : Nat) (v : Nat) (h : i ≠ j) :
    (l.set i v).getD j 0 = l.getD j 0 := by
  simp [List.getD_eq_getElem?_getD, List.getElem?_set_ne h]

lemma getD_set_zero (l : List Nat) (i : Nat) : (l.set i 0).getD i 0 = 0 := by
  rcases Nat.lt_or_ge i l.length with hlt | hge
  · simp [List.getD_eq_getElem?_getD, List.getElem?_set_self hlt]
  · rw [List.set_eq_of_length_le hge]
    simp [List.getD_eq_getElem?_getD, List.getElem?_eq_none hge]

lemma fill_step_inv (w h : Nat) (rgba0 : List Nat) (seeds : List Rgb)
    (tol_sq : Nat) (s s2 : FillState) (p : Nat × Nat) (rest : List (Nat × Nat))
    (hInv : FillInv w h rgba0 seeds tol_sq s) (hstack : s.stack = p :: rest)
    (h2r : s2.rgba = s.rgba) (h2v : s2.visited = s.visited)
    (h2s : s2.stack = rest) :
    FillInv w h rgba0 seeds tol_sq (fill_step w h seeds tol_sq s2 p) ∧
    fill_measure (fill_step w h seeds tol_sq s2 p) + 1 ≤ fill_measure s := by
  obtain ⟨len_rgba, len_vis, rgb_frame, alpha_sound, alpha_out, stack_ok,
    stack_reach, processed, border_vis⟩ := hInv
  have hpmem : p ∈ s.stack := by rw [hstack]; exact List.mem_cons_self _ _
  have hpin : in_bounds w h p := (stack_ok p hpmem).1
  have hpvis : s.visited.getD (pix_idx w p) false = true := (stack_ok p hpmem).2
  have hidxp : pix_idx w p < w * h := pix_idx_lt w h p hpin
  have hmeass : fill_measure s = 5 * s.visited.count false + rest.length + 1 := by
    unfold fill_measure
    rw [hstack]
    simp
    omega
  have hcond : is_bg seeds tol_sq (s.rgba.getD (4 * pix_idx w p) 0,
      s.rgba.getD (4 * pix_idx w p + 1) 0, s.rgba.getD (4 * pix_idx w p + 2) 0)
      = is_bg seeds tol_sq (rgb_at rgba0 w p) := by
    rw [show (s.rgba.getD (4 * pix_idx w p) 0, s.rgba.getD (4 * pix_idx w p + 1) 0,
      s.rgba.getD (4 * pix_idx w p + 2) 0) = rgb_at s.rgba w p from rfl,
      rgb_at_frame w s.rgba rgba0 rgb_frame p]
  rw [fill_step_eq w h seeds tol_sq s2 p, h2r, h2v, h2s, hcond]
  by_cases hbg : is_bg seeds tol_sq (rgb_at rgba0 w p) = true
  · rw [if_pos hbg]
    set s1 : FillState := ⟨s.rgba.set (4 * pix_idx w p + 3) 0, s.visited, rest⟩
      with hs1
    set t := (step_nbrs w h p).foldl (fill_push w) s1 with ht
    have hreachp : ReachesBg w h
        (fun q => is_bg seeds tol_sq (rgb_at rgba0 w q) = true) p :=
      stack_reach p hpmem hbg
    have htr : t.rgba = s.rgba.set (4 * pix_idx w p + 3) 0 := by
      rw [ht, foldl_push_rgba]
    have htvlen : t.visited.length = w * h := by
      rw [ht, foldl_push_vis_length]
      exact len_vis
    have hnbin : ∀ q ∈ step_nbrs w h p, in_bounds w h q :=
      fun q hq => step_nbrs_in_bounds w h p q hpin hq
    have hnbidx : ∀ q ∈ step_nbrs w h p, pix_idx w q < s1.visited.length := by
      intro q hq
      show pix_idx w q < s.visited.length
      rw [len_vis]
      exact pix_idx_lt w h q (hnbin q hq)
    have halpha0 : t.rgba.getD (4 * pix_idx w p + 3) 0 = 0 := by
      rw [htr]
      exact getD_set_zero _ _
    have hvmono : ∀ j, s.visited.getD j false = true →
        t.visited.getD j false = true := by
      intro j hj
      rw [ht]
      exact foldl_push_vis_mono w _ s1 j hj
    have hstackgrow : ∀ r, r ∈ rest → r ∈ t.stack := by
      intro r hr
      rw [ht]
      exact foldl_push_stack_grow w _ s1 r hr
    refine ⟨⟨?_, ?_, ?_, ?_, ?_, ?_, ?_, ?_, ?_⟩, ?_⟩
    · rw [htr, List.length_set]
      exact len_rgba
    · exact htvlen
    · intro i hi
      rw [htr, getD_set_ne_nat _ _ _ _ (by omega)]
      exact rgb_frame i hi
    · intro q hq
      by_cases hqp : q = p
      · subst hqp
        exact Or.inr ⟨halpha0, hreachp⟩
      · have hne : 4 * pix_idx w q + 3 ≠ 4 * pix_idx w p + 3 := by
          intro hcontra
          exact hqp (pix_idx_inj w h q p hq hpin (by omega))
        rw [htr, getD_set_ne_nat _ _ _ _ (by omega)]
        exact alpha_sound q hq
    · intro i h1 h2
      have : 4 * pix_idx w p + 3 < w * h * 4 := by omega
      rw [htr, getD_set_ne_nat _ _ _ _ (by omega)]
      exact alpha_out i h1 h2
    · intro r hr
      rw [ht] at hr
      rcases foldl_push_stack_sub w _ s1 r hr with hr2 | hr2
      · have hrs : r ∈ s.stack := by
          rw [hstack]
          exact List.mem_cons_of_mem _ hr2
        exact ⟨(stack_ok r hrs).1, hvmono _ (stack_ok r hrs).2⟩
      · refine ⟨hnbin r hr2, ?_⟩
        rw [ht]
        exact foldl_push_vis_elem w _ s1 r hr2 (hnbidx r hr2)
    · intro r hr hrbg
      rw [ht] at hr
      rcases foldl_push_stack_sub w _ s1 r hr with hr2 | hr2
      · exact stack_reach r (by rw [hstack]; exact List.mem_cons_of_mem _ hr2) hrbg
      · exact ReachesBg.step p r hreachp (step_nbrs_adjacent w h p r hr2)
          (hnbin r hr2) hrbg
    · intro q hqin hqvis hqstack hqbg
      by_cases hqp : q = p
      · subst hqp
        refine ⟨halpha0, ?_⟩
        intro r hadj hrin
        rw [ht]
        exact foldl_push_vis_elem w _ s1 r (adj_mem_step_nbrs w h q r hadj hrin)
          (hnbidx r (adj_mem_step_nbrs w h q r hadj hrin))
      · have hqvisS : s.visited.getD (pix_idx w q) false = true := by
          rw [ht] at hqvis
          rcases foldl_push_vis_new w _ s1 (pix_idx w q) hqvis with hv | hv
          · exact hv
          · obtain ⟨r, hrnb, hridx, hrstack⟩ := hv
            exfalso
            have : q = r := pix_idx_inj w h q r hqin (hnbin r hrnb) hridx
            subst this
            exact hqstack (by rw [ht]; exact hrstack)
        have hqnotstack : q ∉ s.stack := by
          rw [hstack]
          intro hmem
          rcases List.mem_cons.mp hmem with hm | hm
          · exact hqp hm
          · exact hqstack (hstackgrow q hm)
        obtain ⟨halq, hnbq⟩ := processed q hqin hqvisS hqnotstack hqbg
        have hne : 4 * pix_idx w q + 3 ≠ 4 * pix_idx w p + 3 := by
          intro hcontra
          exact hqp (pix_idx_inj w h q p hqin hpin (by omega))
        refine ⟨?_, ?_⟩
        · rw [htr, getD_set_ne_nat _ _ _ _ (by omega)]
          exact halq
        · intro r hadj hrin
          exact hvmono _ (hnbq r hadj hrin)
    · intro q h1 h2b
      exact hvmono _ (border_vis q h1 h2b)
    · have hms1 : fill_measure s1 = 5 * s.visited.count false + rest.length := by
        unfold fill_measure
        rfl
      have := foldl_push_measure w (step_nbrs w h p) s1 hnbidx
      rw [ht]
      omega
  · rw [if_neg hbg]
    refine ⟨⟨?_, ?_, ?_, ?_, ?_, ?_, ?_, ?_, ?_⟩, ?_⟩
    · rw [h2r]; exact len_rgba
    · rw [h2v]; exact len_vis
    · intro i hi
      rw [h2r]
      exact rgb_frame i hi
    · intro q hq
      rw [h2r]
      exact alpha_sound q hq
    · intro i h1 h2
      rw [h2r]
      exact alpha_out i h1 h2
    · intro q hq
      rw [h2s] at hq
      rw [h2v]
      exact stack_ok q (by rw [hstack]; exact List.mem_cons_of_mem _ hq)
    · intro q hq hqbg
      rw [h2s] at hq
      exact stack_reach q (by rw [hstack]; exact List.mem_cons_of_mem _ hq) hqbg
    · intro q hqin hqvis hqstack hqbg
      rw [h2v] at hqvis
      rw [h2s] at hqstack
      rw [h2r, h2v]
      by_cases hqp : q = p
      · subst hqp
        exact absurd hqbg hbg
      · refine processed q hqin hqvis ?_ hqbg
        rw [hstack]
        intro hmem
        rcases List.mem_cons.mp hmem with hm | hm
        · exact hqp hm
        · exact hqstack hm
    · intro q h1 h2b
      rw [h2v]
      exact border_vis q h1 h2b
    · unfold fill_measure
      rw [h2v, h2s, hstack]
      simp
      omega


lemma foldl_push2_eq (w : Nat) (f1 f2 : Nat → Nat × Nat) :
    ∀ (l : List Nat) (t : FillState),
    l.foldl (fun s x => fill_push w (fill_push w s (f1 x)) (f2 x)) t =
      (l.flatMap (fun x => [f1 x, f2 x])).foldl (fill_push w) t := by
  intro l
  induction l with
  | nil => intro t; rfl
  | cons a l ih =>
    intro t
    rw [List.foldl_cons, ih, List.flatMap_cons, List.foldl_append]
    rfl

lemma fill_seed_eq (w h : Nat) (rgba : List Nat) :
    fill_seed w h rgba =
      (seed_list w h).foldl (fill_push w)
        ⟨rgba, List.replicate (w * h) false, []⟩ := by
  unfold fill_seed seed_list
  dsimp only
  rw [foldl_push2_eq w (fun x => (x, 0)) (fun x => (x, h - 1)),
    foldl_push2_eq w (fun y => (0, y)) (fun y => (w - 1, y)),
    List.foldl_append]

lemma seed_list_mem (w h : Nat) (hw : 0 < w) (hh : 0 < h) (p : Nat × Nat)
    (hp : p ∈ seed_list w h) : in_bounds w h p ∧ on_border w h p := by
  unfold seed_list at hp
  rcases List.mem_append.mp hp with hp | hp <;>
    · rw [List.mem_flatMap] at hp
      obtain ⟨a, ha, hmem⟩ := hp
      rw [List.mem_range] at ha
      simp only [List.mem_cons, List.mem_singleton] at hmem
      unfold in_bounds on_border
      rcases hmem with rfl | rfl | hfalse
      · exact ⟨⟨by simp; omega, by simp; omega⟩, by simp⟩
      · exact ⟨⟨by simp; omega, by simp; omega⟩, by simp⟩
      · simp at hfalse

lemma seed_list_covers (w h : Nat) (p : Nat × Nat) (hin : in_bounds w h p)
    (hb : on_border w h p) : p ∈ seed_list w h := by
  obtain ⟨h1, h2⟩ := hin
  unfold seed_list
  rw [List.mem_append]
  rcases hb with hb | hb | hb | hb
  · right
    rw [List.mem_flatMap]
    refine ⟨p.2, by rw [List.mem_range]; exact h2, ?_⟩
    have hp : p = (0, p.2) := by
      rw [← hb]
    rw [hp]
    simp
  · right
    rw [List.mem_flatMap]
    refine ⟨p.2, by rw [List.mem_range]; exact h2, ?_⟩
    have hp : p = (w - 1, p.2) := by
      rw [← hb]
    rw [hp]
    simp
  · left
    rw [List.mem_flatMap]
    refine ⟨p.1, by rw [List.mem_range]; exact h1, ?_⟩
    have hp : p = (p.1, 0) := by
      rw [← hb]
    rw [hp]
    simp
  · left
    rw [List.mem_flatMap]
    refine ⟨p.1, by rw [List.mem_range]; exact h1, ?_⟩
    have hp : p = (p.1, h - 1) := by
      rw [← hb]
    rw [hp]
    simp

lemma getD_replicate_false (n j : Nat) :
    (List.replicate n false).getD j false = false := by
  rw [List.getD_eq_getElem?_getD, List.getElem?_replicate]
  split <;> rfl

lemma fill_push_count_le (w : Nat) (s : FillState) (p : Nat × Nat) :
    (fill_push w s p).visited.count false ≤ s.visited.count false := by
  unfold fill_push
  split
  · exact le_refl _
  · exact count_set_true_le s.visited _

lemma foldl_push_count_le (w : Nat) : ∀ (L : List (Nat × Nat)) (s : FillState),
    (L.foldl (fill_push w) s).visited.count false ≤ s.visited.count false := by
  intro L
  induction L with
  | nil => intro s; exact le_refl _
  | cons q L ih =>
    intro s
    rw [List.foldl_cons]
    exact le_trans (ih _) (fill_push_count_le w s q)

lemma fill_push_stack_len (w : Nat) (s : FillState) (p : Nat × Nat) :
    (fill_push w s p).stack.length ≤ s.stack.length + 1 := by
  unfold fill_push
  split
  · omega
  · simp

lemma foldl_push_stack_len (w : Nat) : ∀ (L : List (Nat × Nat)) (s : FillState),
    (L.foldl (fill_push w) s).stack.length ≤ s.stack.length + L.length := by
  intro L
  induction L with
  | nil => intro s; simp
  | cons q L ih =>
    intro s
    rw [List.foldl_cons]
    calc ((L.foldl (fill_push w) (fill_push w s q)).stack.length)
        ≤ (fill_push w s q).stack.length + L.length := ih _
    _ ≤ s.stack.length + 1 + L.length := by
        have := fill_push_stack_len w s q
        omega
    _ = s.stack.length + (q :: L).length := by simp; omega

lemma flatMap_pair_length (f1 f2 : Nat → Nat × Nat) : ∀ (l : List Nat),
    (l.flatMap (fun x => [f1 x, f2 x])).length = 2 * l.length := by
  intro l
  induction l with
  | nil => rfl
  | cons a l ih =>
    rw [List.flatMap_cons]
    simp only [List.length_append, List.length_cons, List.length_singleton, ih]
    simp
    omega

lemma seed_list_length (w h : Nat) : (seed_list w h).length = 2 * w + 2 * h := by
  unfold seed_list
  rw [List.length_append, flatMap_pair_length, flatMap_pair_length]
  simp

lemma count_false_replicate (n : Nat) :
    (List.replicate n false).count false = n := by
  induction n with
  | zero => rfl
  | succ n ih =>
    rw [List.replicate_succ, List.count_cons, ih]
    simp

lemma fill_seed_inv (w h : Nat) (rgba0 : List Nat) (seeds : List Rgb)
    (tol_sq : Nat) (hw : 0 < w) (hh : 0 < h) :
    FillInv w h rgba0 seeds tol_sq (fill_seed w h rgba0) ∧
    fill_measure (fill_seed w h rgba0) ≤ fill_fuel w h := by
  rw [fill_seed_eq]
  set s0 : FillState := ⟨rgba0, List.replicate (w * h) false, []⟩ with hs0
  have hidx : ∀ q : Nat × Nat, in_bounds w h q → pix_idx w q < s0.visited.length := by
    intro q hq
    show pix_idx w q < (List.replicate (w * h) false).length
    rw [List.length_replicate]
    exact pix_idx_lt w h q hq
  have hmem := fun p hp => seed_list_mem w h hw hh p hp
  constructor
  · refine ⟨?_, ?_, ?_, ?_, ?_, ?_, ?_, ?_, ?_⟩
    · rw [foldl_push_rgba]
    · rw [foldl_push_vis_length]
      exact List.length_replicate _ _
    · intro i hi
      rw [foldl_push_rgba]
    · intro q hq
      rw [foldl_push_rgba]
      exact Or.inl rfl
    · intro i h1 h2
      rw [foldl_push_rgba]
    · intro r hr
      rcases foldl_push_stack_sub w _ s0 r hr with hr2 | hr2
      · simp [hs0] at hr2
      · exact ⟨(hmem r hr2).1, foldl_push_vis_elem w _ s0 r hr2
          (hidx r (hmem r hr2).1)⟩
    · intro r hr hrbg
      rcases foldl_push_stack_sub w _ s0 r hr with hr2 | hr2
      · simp [hs0] at hr2
      · exact ReachesBg.border r (hmem r hr2).1 (hmem r hr2).2 hrbg
    · intro q hqin hqvis hqstack hqbg
      exfalso
      rcases foldl_push_vis_new w _ s0 (pix_idx w q) hqvis with hv | hv
      · rw [show s0.visited = List.replicate (w * h) false from rfl,
          getD_replicate_false] at hv
        exact Bool.false_ne_true hv
      · obtain ⟨r, hrL, hridx, hrstack⟩ := hv
        have : q = r := pix_idx_inj w h q r hqin (hmem r hrL).1 hridx
        subst this
        exact hqstack hrstack
    · intro q h1 h2
      exact foldl_push_vis_elem w _ s0 q (seed_list_covers w h q h1 h2)
        (hidx q h1)
  · unfold fill_measure fill_fuel
    have hc := foldl_push_count_le w (seed_list w h) s0
    have hs := foldl_push_stack_len w (seed_list w h) s0
    rw [seed_list_length] at hs
    have hc0 : s0.visited.count false = w * h := count_false_replicate _
    have hs0l : s0.stack.length = 0 := rfl
    omega

lemma fill_loop_inv (w h : Nat) (rgba0 : List Nat) (seeds : List Rgb)
    (tol_sq : Nat) : ∀ (fuel : Nat) (s : FillState),
    FillInv w h rgba0 seeds tol_sq s → fill_measure s ≤ fuel →
    FillInv w h rgba0 seeds tol_sq (fill_loop w h seeds tol_sq fuel s) ∧
    (fill_loop w h seeds tol_sq fuel s).stack = [] := by
  intro fuel
  induction fuel with
  | zero =>
    intro s hInv hm
    have hlen0 : s.stack.length = 0 := by
      unfold fill_measure at hm
      omega
    exact ⟨hInv, List.length_eq_zero.mp hlen0⟩
  | succ fuel ih =>
    intro s hInv hm
    cases hst : s.stack with
    | nil =>
      show FillInv w h rgba0 seeds tol_sq (fill_loop w h seeds tol_sq (fuel + 1) s) ∧ _
      simp only [fill_loop, hst]
      exact ⟨hInv, trivial⟩
    | cons p rest =>
      show FillInv w h rgba0 seeds tol_sq (fill_loop w h seeds tol_sq (fuel + 1) s) ∧ _
      simp only [fill_loop, hst]
      obtain ⟨hInv2, hmeas2⟩ := fill_step_inv w h rgba0 seeds tol_sq s
        ⟨s.rgba, s.visited, rest⟩ p rest hInv hst rfl rfl rfl
      exact ih _ hInv2 (by omega)

lemma reaches_in_bounds (w h : Nat) (bg : Nat × Nat → Prop) (p : Nat × Nat)
    (hr : ReachesBg w h bg p) : in_bounds w h p := by
  cases hr with
  | border p hin hb hbg => exact hin
  | step q p hq hadj hin hbg => exact hin

lemma reaches_bg (w h : Nat) (bg : Nat × Nat → Prop) (p : Nat × Nat)
    (hr : ReachesBg w h bg p) : bg p := by
  cases hr with
  | border p hin hb hbg => exact hbg
  | step q p hq hadj hin hbg => exact hbg

lemma fill_final_char (w h : Nat) (rgba0 : List Nat) (seeds : List Rgb)
    (tol_sq : Nat) (t : FillState)
    (hInv : FillInv w h rgba0 seeds tol_sq t) (hempty : t.stack = []) :
    (∀ p, ReachesBg w h
        (fun q => is_bg seeds tol_sq (rgb_at rgba0 w q) = true) p →
      t.rgba.getD (4 * pix_idx w p + 3) 0 = 0) ∧
    (∀ p, in_bounds w h p →
      ¬ ReachesBg w h (fun q => is_bg seeds tol_sq (rgb_at rgba0 w q) = true) p →
      t.rgba.getD (4 * pix_idx w p + 3) 0 = rgba0.getD (4 * pix_idx w p + 3) 0) := by
  have hvisited : ∀ p, ReachesBg w h
      (fun q => is_bg seeds tol_sq (rgb_at rgba0 w q) = true) p →
      t.visited.getD (pix_idx w p) false = true := by
    intro p hr
    induction hr with
    | border p hin hb hbg => exact hInv.border_vis p hin hb
    | step q p hq hadj hin hbg ih =>
      have hqvis := ih
      have hqproc := hInv.processed q (reaches_in_bounds w h _ q hq) hqvis
        (by rw [hempty]; exact List.not_mem_nil q) (reaches_bg w h _ q hq)
      exact hqproc.2 p hadj hin
  constructor
  · intro p hr
    have hvis := hvisited p hr
    have hproc := hInv.processed p (reaches_in_bounds w h _ p hr) hvis
      (by rw [hempty]; exact List.not_mem_nil p) (reaches_bg w h _ p hr)
    exact hproc.1
  · intro p hin hnr
    rcases hInv.alpha_sound p hin with hcase | hcase
    · exact hcase
    · exact absurd hcase.2 hnr

lemma py_range_step_lt (n step : Nat) (hs : 0 < step) :
    ∀ a ∈ py_range_step n step, a < n := by
  intro a ha
  unfold py_range_step at ha
  rw [List.mem_range'] at ha
  obtain ⟨i, hi, rfl⟩ := ha
  have hq : (n + step - 1) / step * step ≤ n + step - 1 :=
    Nat.div_mul_le_self _ _
  have hi1 : step * (i + 1) ≤ step * ((n + step - 1) / step) :=
    Nat.mul_le_mul_left _ (by omega)
  have he : step * (i + 1) = step * i + step := by ring
  have hcomm : step * ((n + step - 1) / step) = (n + step - 1) / step * step := by
    ring
  omega

lemma py_get_some (l : List Nat) (i : Int) (h0 : 0 ≤ i)
    (hlt : i.toNat < l.length) : py_get l i = some (l.getD i.toNat 0) := by
  unfold py_get
  rw [if_pos h0, if_pos hlt]

lemma get_rgb_eq (rgba : List Nat) (w hgt x y : Nat) (hx : x < w)
    (hy : y < hgt) (hlen : rgba.length = w * hgt * 4) :
    get_rgb rgba w (x : Int) (y : Int) = some (rgb_at rgba w (x, y)) := by
  have hidx : y * w + x < w * hgt := by
    have := pix_idx_lt w hgt (x, y) ⟨hx, hy⟩
    unfold pix_idx at this
    simpa using this
  have hcast : ((y : Int) * (w : Int) + (x : Int)) * 4
      = (((y * w + x) * 4 : Nat) : Int) := by
    push_cast
    ring
  have hb0 : ((y * w + x) * 4 : Nat) < rgba.length := by
    rw [hlen]
    omega
  have hb1 : ((y * w + x) * 4 + 1 : Nat) < rgba.length := by
    rw [hlen]
    omega
  have hb2 : ((y * w + x) * 4 + 2 : Nat) < rgba.length := by
    rw [hlen]
    omega
  unfold get_rgb
  dsimp only
  rw [hcast]
  rw [show ((((y * w + x) * 4 : Nat) : Int) + 1) = (((y * w + x) * 4 + 1 : Nat) : Int)
      by push_cast; ring,
    show ((((y * w + x) * 4 : Nat) : Int) + 2) = (((y * w + x) * 4 + 2 : Nat) : Int)
      by push_cast; ring]
  rw [py_get_some rgba _ (by positivity) (by simpa using hb0),
    py_get_some rgba _ (by positivity) (by simpa using hb1),
    py_get_some rgba _ (by positivity) (by simpa using hb2)]
  show some _ = some _
  unfold rgb_at pix_idx
  simp only [Int.toNat_natCast]
  rw [show 4 * (y * w + x) = (y * w + x) * 4 by ring]

lemma foldlM_opt_pair (A B : Nat → Option Rgb) (a b : Nat → Rgb) :
    ∀ (l : List Nat), (∀ x ∈ l, A x = some (a x)) → (∀ x ∈ l, B x = some (b x)) →
    ∀ acc : List Rgb,
    l.foldlM (fun acc x => do
      let c1 ← A x
      let c2 ← B x
      pure (acc ++ [c1, c2])) acc
      = some (acc ++ l.flatMap (fun x => [a x, b x])) := by
  intro l
  induction l with
  | nil =>
    intro hA hB acc
    simp
  | cons q l ih =>
    intro hA hB acc
    rw [List.foldlM_cons]
    simp only [hA q (List.mem_cons_self q l), hB q (List.mem_cons_self q l),
      Option.bind_some]
    show l.foldlM _ (acc ++ [a q, b q]) = _
    rw [ih (fun x hx => hA x (List.mem_cons_of_mem _ hx))
      (fun x hx => hB x (List.mem_cons_of_mem _ hx)) (acc ++ [a q, b q])]
    simp

lemma sample_eq_border_scan (img : PngImage) (hw : 0 < img.width)
    (hh : 0 < img.height)
    (hlen : img.rgba.length = img.width * img.height * 4) :
    sample_border_colors img 16 = some (border_scan img 16) := by
  obtain ⟨w, h, rgba⟩ := img
  simp only at hw hh hlen
  unfold sample_border_colors border_scan
  dsimp only
  have hx1 : ∀ x ∈ py_range_step w 16,
      get_rgb rgba w (x : Int) 0 = some (rgb_at rgba w (x, 0)) := by
    intro x hx
    have := get_rgb_eq rgba w h x 0 (py_range_step_lt w 16 (by omega) x hx) hh hlen
    simpa using this
  have hx2 : ∀ x ∈ py_range_step w 16,
      get_rgb rgba w (x : Int) ((h : Int) - 1) = some (rgb_at rgba w (x, h - 1)) := by
    intro x hx
    have hc : (h : Int) - 1 = ((h - 1 : Nat) : Int) := by
      rw [Nat.cast_sub (by omega : 1 ≤ h)]
      simp
    rw [hc]
    exact get_rgb_eq rgba w h x (h - 1) (py_range_step_lt w 16 (by omega) x hx)
      (by omega) hlen
  have hy1 : ∀ y ∈ py_range_step h 16,
      get_rgb rgba w 0 (y : Int) = some (rgb_at rgba w (0, y)) := by
    intro y hy
    have := get_rgb_eq rgba w h 0 y hw (py_range_step_lt h 16 (by omega) y hy) hlen
    simpa using this
  have hy2 : ∀ y ∈ py_range_step h 16,
      get_rgb rgba w ((w : Int) - 1) (y : Int) = some (rgb_at rgba w (w - 1, y)) := by
    intro y hy
    have hc : (w : Int) - 1 = ((w - 1 : Nat) : Int) := by
      rw [Nat.cast_sub (by omega : 1 ≤ w)]
      simp
    rw [hc]
    exact get_rgb_eq rgba w h (w - 1) y (by omega)
      (py_range_step_lt h 16 (by omega) y hy) hlen
  rw [foldlM_opt_pair (fun x => get_rgb rgba w (x : Int) 0)
    (fun x => get_rgb rgba w (x : Int) ((h : Int) - 1))
    (fun x => rgb_at rgba w (x, 0)) (fun x => rgb_at rgba w (x, h - 1))
    (py_range_step w 16) hx1 hx2 []]
  show (py_range_step h 16).foldlM _
    ([] ++ (py_range_step w 16).flatMap
      fun x => [rgb_at rgba w (x, 0), rgb_at rgba w (x, h - 1)]) = _
  rw [foldlM_opt_pair (fun y => get_rgb rgba w 0 (y : Int))
    (fun y => get_rgb rgba w ((w : Int) - 1) (y : Int))
    (fun y => rgb_at rgba w (0, y)) (fun y => rgb_at rgba w (w - 1, y))
    (py_range_step h 16) hy1 hy2 _]
  simp

lemma bg2a_eq (img : PngImage) (tolerance k : Nat) (colors : List Rgb)
    (hs : sample_border_colors img 16 = some colors) :
    background_to_alpha_floodfill img tolerance k =
      (if (most_common colors k).isEmpty then some img
       else some ⟨img.width, img.height,
         (fill_loop img.width img.height (most_common colors k)
           (tolerance * tolerance) (fill_fuel img.width img.height)
           (fill_seed img.width img.height img.rgba)).rgba⟩) := by
  unfold background_to_alpha_floodfill
  rw [hs]

theorem c3_flood_fill_connectivity (img : PngImage) (tolerance k : Nat)
    (hw : 0 < img.width) (hh : 0 < img.height)
    (hlen : img.rgba.length = img.width * img.height * 4) :
    ∃ out, background_to_alpha_floodfill img tolerance k = some out ∧
      ∀ p : Nat × Nat, in_bounds img.width img.height p →
        (ReachesBg img.width img.height
            (fun q => is_bg (most_common (border_scan img 16) k)
              (tolerance * tolerance) (rgb_at img.rgba img.width q) = true) p →
          out.rgba.getD (4 * pix_idx img.width p + 3) 0 = 0) ∧
        (¬ ReachesBg img.width img.height
            (fun q => is_bg (most_common (border_scan img 16) k)
              (tolerance * tolerance) (rgb_at img.rgba img.width q) = true) p →
          out.rgba.getD (4 * pix_idx img.width p + 3) 0 =
            img.rgba.getD (4 * pix_idx img.width p + 3) 0) := by
  have hsample := sample_eq_border_scan img hw hh hlen
  rw [bg2a_eq img tolerance k _ hsample]
  by_cases hempty : (most_common (border_scan img 16) k).isEmpty
  · rw [if_pos hempty]
    refine ⟨img, rfl, ?_⟩
    intro p hp
    have hnone : ∀ q, ¬ is_bg (most_common (border_scan img 16) k)
        (tolerance * tolerance) (rgb_at img.rgba img.width q) = true := by
      intro q
      rw [List.isEmpty_iff] at hempty
      rw [hempty]
      simp [is_bg]
    constructor
    · intro hr
      exact absurd (reaches_bg _ _ _ p hr) (hnone p)
    · intro hnr
      rfl
  · rw [if_neg hempty]
    obtain ⟨hInvSeed, hmeas⟩ := fill_seed_inv img.width img.height img.rgba
      (most_common (border_scan img 16) k) (tolerance * tolerance) hw hh
    obtain ⟨hInvF, hstackF⟩ := fill_loop_inv img.width img.height img.rgba
      (most_common (border_scan img 16) k) (tolerance * tolerance)
      (fill_fuel img.width img.height) _ hInvSeed hmeas
    obtain ⟨hzero, hkeep⟩ := fill_final_char img.width img.height img.rgba
      (most_common (border_scan img 16) k) (tolerance * tolerance) _ hInvF hstackF
    refine ⟨_, rfl, ?_⟩
    intro p hp
    exact ⟨fun hr => hzero p hr, fun hnr => hkeep p hp hnr⟩

/-- Witness for C3 at a 1x1 image whose single pixel matches the seed. -/
theorem c3_flood_fill_connectivity_witness :
    ∃ out, background_to_alpha_floodfill ⟨1, 1, [9, 9, 9, 7]⟩ 28 2 = some out ∧
      ∀ p : Nat × Nat, in_bounds 1 1 p →
        (ReachesBg 1 1
            (fun q => is_bg (most_common (border_scan ⟨1, 1, [9, 9, 9, 7]⟩ 16) 2)
              (28 * 28) (rgb_at [9, 9, 9, 7] 1 q) = true) p →
          out.rgba.getD (4 * pix_idx 1 p + 3) 0 = 0) ∧
        (¬ ReachesBg 1 1
            (fun q => is_bg (most_common (border_scan ⟨1, 1, [9, 9, 9, 7]⟩ 16) 2)
              (28 * 28) (rgb_at [9, 9, 9, 7] 1 q) = true) p →
          out.rgba.getD (4 * pix_idx 1 p + 3) 0 =
            ([9, 9, 9, 7] : List Nat).getD (4 * pix_idx 1 p + 3) 0) :=
  c3_flood_fill_connectivity ⟨1, 1, [9, 9, 9, 7]⟩ 28 2 (by decide) (by decide)
    (by decide)

lemma py_get_nil (i : Int) : py_get [] i = none := by
  unfold py_get
  rcases le_or_lt 0 i with h | h
  · rw [if_pos h, if_neg]
    simp
  · rw [if_neg (not_le.mpr h), if_neg]
    simp only [List.length_nil, Nat.le_zero, Int.natAbs_eq_zero]
    omega

lemma get_rgb_nil (w : Nat) (x y : Int) : get_rgb [] w x y = none := by
  unfold get_rgb
  dsimp only
  rw [py_get_nil]
  rfl

lemma py_range_step_nil (n : Nat) : py_range_step n 16 = [] ↔ n = 0 := by
  unfold py_range_step
  rw [List.range'_eq_nil]
  omega

lemma sample_pos_of_some (img : PngImage) (colors : List Rgb)
    (hs : sample_border_colors img 16 = some colors) (hne : colors ≠ [])
    (hlen : img.rgba.length = img.width * img.height * 4) :
    0 < img.width ∧ 0 < img.height := by
  by_contra hcon
  have hzero : img.width = 0 ∨ img.height = 0 := by
    rcases Nat.eq_zero_or_pos img.width with h0 | hw
    · exact .inl h0
    rcases Nat.eq_zero_or_pos img.height with h0 | hh
    · exact .inr h0
    exact absurd ⟨hw, hh⟩ hcon
  have hrgba : img.rgba = [] := by
    apply List.length_eq_zero.mp
    rw [hlen]
    rcases hzero with h0 | h0 <;> rw [h0] <;> ring
  rcases Nat.eq_zero_or_pos img.width with hw0 | hwpos
  · rcases Nat.eq_zero_or_pos img.height with hh0 | hhpos
    · -- both zero: sample returns some []
      have : sample_border_colors img 16 = some [] := by
        unfold sample_border_colors
        dsimp only
        rw [(py_range_step_nil img.width).mpr hw0,
          (py_range_step_nil img.height).mpr hh0]
        rfl
      rw [this] at hs
      exact hne (Option.some.inj hs).symm
    · -- width zero, height positive: the y-loop fails on the empty buffer
      obtain ⟨a, rest, hcons⟩ := List.exists_cons_of_ne_nil
        (fun hnil => by rw [py_range_step_nil] at hnil; omega :
          py_range_step img.height 16 ≠ [])
      have : sample_border_colors img 16 = none := by
        unfold sample_border_colors
        dsimp only
        rw [(py_range_step_nil img.width).mpr hw0, hcons, hrgba]
        simp [List.foldlM_cons, get_rgb_nil]
      rw [this] at hs
      exact Option.noConfusion hs
  · -- width positive, height zero: the x-loop fails on the empty buffer
    obtain ⟨a, rest, hcons⟩ := List.exists_cons_of_ne_nil
      (fun hnil => by rw [py_range_step_nil] at hnil; omega :
        py_range_step img.width 16 ≠ [])
    have : sample_border_colors img 16 = none := by
      unfold sample_border_colors
      dsimp only
      rw [hcons, hrgba]
      simp [List.foldlM_cons, get_rgb_nil]
    rw [this] at hs
    exact Option.noConfusion hs

lemma bg2a_some_facts (img : PngImage) (tolerance k : Nat) (out : PngImage)
    (hlen : img.rgba.length = img.width * img.height * 4)
    (hsome : background_to_alpha_floodfill img tolerance k = some out) :
    out.width = img.width ∧ out.height = img.height ∧
    out.rgba.length = img.rgba.length ∧
    (∀ i, i % 4 ≠ 3 → out.rgba.getD i 0 = img.rgba.getD i 0) ∧
    (∀ i, i % 4 = 3 → out.rgba.getD i 0 = img.rgba.getD i 0 ∨
      (out.rgba.getD i 0 = 0 ∧
        ∃ colors, sample_border_colors img 16 = some colors ∧
          is_bg (most_common colors k) (tolerance * tolerance)
            (rgb_at img.rgba img.width
              (i / 4 % img.width, i / 4 / img.width)) = true)) := by
  cases hsample : sample_border_colors img 16 with
  | none =>
    unfold background_to_alpha_floodfill at hsome
    rw [hsample] at hsome
    exact Option.noConfusion hsome
  | some colors =>
    rw [bg2a_eq img tolerance k colors hsample] at hsome
    by_cases hempty : (most_common colors k).isEmpty
    · rw [if_pos hempty] at hsome
      have hout : out = img := (Option.some.inj hsome).symm
      subst hout
      exact ⟨rfl, rfl, rfl, fun i _ => rfl, fun i _ => .inl rfl⟩
    · rw [if_neg hempty] at hsome
      have hcne : colors ≠ [] := by
        intro hnil
        subst hnil
        simp [most_common, first_seen, sort_by_count, List.take_nil] at hempty
      obtain ⟨hw, hh⟩ := sample_pos_of_some img colors hsample hcne hlen
      obtain ⟨hInvSeed, hmeas⟩ := fill_seed_inv img.width img.height img.rgba
        (most_common colors k) (tolerance * tolerance) hw hh
      obtain ⟨hInvF, -⟩ := fill_loop_inv img.width img.height img.rgba
        (most_common colors k) (tolerance * tolerance)
        (fill_fuel img.width img.height) _ hInvSeed hmeas
      have hout : out = ⟨img.width, img.height,
          (fill_loop img.width img.height (most_common colors k)
            (tolerance * tolerance) (fill_fuel img.width img.height)
            (fill_seed img.width img.height img.rgba)).rgba⟩ :=
        (Option.some.inj hsome).symm
      subst hout
      refine ⟨rfl, rfl, hInvF.len_rgba, hInvF.rgb_frame, ?_⟩
      intro i hi3
      by_cases hib : i < img.width * img.height * 4
      · have hq4 : i = 4 * (i / 4) + 3 := by omega
        have hqlt : i / 4 < img.width * img.height := by
          have h44 : 4 * (img.width * img.height) = img.width * img.height * 4 := by
            ring
          omega
        have hp : in_bounds img.width img.height
            (i / 4 % img.width, i / 4 / img.width) := by
          refine ⟨Nat.mod_lt _ hw, ?_⟩
          show i / 4 / img.width < img.height
          rw [Nat.div_lt_iff_lt_mul hw]
          calc i / 4 < img.width * img.height := hqlt
          _ = img.height * img.width := by ring
        have hpi : pix_idx img.width (i / 4 % img.width, i / 4 / img.width)
            = i / 4 := by
          show i / 4 / img.width * img.width + i / 4 % img.width = i / 4
          rw [Nat.mul_comm]
          exact Nat.div_add_mod (i / 4) img.width
        rcases hInvF.alpha_sound (i / 4 % img.width, i / 4 / img.width) hp
          with hcase | hcase
        · left
          rw [hpi] at hcase
          rw [hq4]
          exact hcase
        · right
          rw [hpi] at hcase
          refine ⟨by rw [hq4]; exact hcase.1,
            ⟨colors, rfl, reaches_bg _ _ _ _ hcase.2⟩⟩
      · left
        exact hInvF.alpha_out i hi3 (by omega)

/-- C5.  `background_to_alpha_floodfill` modifies only alpha bytes: whenever
the call returns an image, the dimensions and the buffer length are those of
the input, every byte whose index is not `3 mod 4` (the R, G and B channels)
is unchanged, and an alpha byte that differs from the input has been set to
`0` at a pixel accepted by the background predicate for the sampled seed
colors. -/
theorem c5_only_alpha_modified (img : PngImage) (tolerance k : Nat)
    (out : PngImage)
    (hlen : img.rgba.length = img.width * img.height * 4)
    (hsome : background_to_alpha_floodfill img tolerance k = some out) :
    out.width = img.width ∧ out.height = img.height ∧
    out.rgba.length = img.rgba.length ∧
    (∀ i, i % 4 ≠ 3 → out.rgba.getD i 0 = img.rgba.getD i 0) ∧
    (∀ i, i % 4 = 3 → out.rgba.getD i 0 ≠ img.rgba.getD i 0 →
      out.rgba.getD i 0 = 0 ∧
        ∃ colors, sample_border_colors img 16 = some colors ∧
          is_bg (most_common colors k) (tolerance * tolerance)
            (rgb_at img.rgba img.width
              (i / 4 % img.width, i / 4 / img.width)) = true) := by
  obtain ⟨h1, h2, h3, h4, h5⟩ := bg2a_some_facts img tolerance k out hlen hsome
  refine ⟨h1, h2, h3, h4, ?_⟩
  intro i hi3 hne
  rcases h5 i hi3 with hcase | hcase
  · exact absurd hcase hne
  · exact hcase

/-- Witness for C5 at a 1x1 image whose pixel is cleared. -/
theorem c5_only_alpha_modified_witness :
    background_to_alpha_floodfill ⟨1, 1, [9, 9, 9, 7]⟩ 28 2 =
      some ⟨1, 1, [9, 9, 9, 0]⟩ ∧
    ((⟨1, 1, [9, 9, 9, 0]⟩ : PngImage).width = 1 ∧
      (⟨1, 1, [9, 9, 9, 0]⟩ : PngImage).height = 1 ∧
      ([9, 9, 9, 0] : List Nat).length = ([9, 9, 9, 7] : List Nat).length ∧
      (∀ i, i % 4 ≠ 3 → ([9, 9, 9, 0] : List Nat).getD i 0 =
        ([9, 9, 9, 7] : List Nat).getD i 0) ∧
      (∀ i, i % 4 = 3 → ([9, 9, 9, 0] : List Nat).getD i 0 ≠
          ([9, 9, 9, 7] : List Nat).getD i 0 →
        ([9, 9, 9, 0] : List Nat).getD i 0 = 0 ∧
          ∃ colors, sample_border_colors ⟨1, 1, [9, 9, 9, 7]⟩ 16 = some colors ∧
            is_bg (most_common colors 2) (28 * 28)
              (rgb_at [9, 9, 9, 7] 1 (i / 4 % 1, i / 4 / 1)) = true)) := by
  have hsome : background_to_alpha_floodfill ⟨1, 1, [9, 9, 9, 7]⟩ 28 2 =
      some ⟨1, 1, [9, 9, 9, 0]⟩ := by decide
  exact ⟨hsome,
    c5_only_alpha_modified ⟨1, 1, [9, 9, 9, 7]⟩ 28 2 ⟨1, 1, [9, 9, 9, 0]⟩
      (by decide) hsome⟩

lemma mem_insert_by_count (cnt : Rgb → Nat) (a x : Rgb) :
    ∀ l : List Rgb, x ∈ insert_by_count cnt a l ↔ x = a ∨ x ∈ l := by
  intro l
  induction l with
  | nil => simp [insert_by_count]
  | cons b bs ih =>
    unfold insert_by_count
    by_cases hc : cnt b < cnt a
    · rw [if_pos hc]
      simp
    · rw [if_neg hc]
      simp only [List.mem_cons, ih]
      tauto

lemma insert_by_count_perm (cnt : Rgb → Nat) (a : Rgb) :
    ∀ l : List Rgb, (insert_by_count cnt a l).Perm (a :: l) := by
  intro l
  induction l with
  | nil => exact List.Perm.refl _
  | cons b bs ih =>
    unfold insert_by_count
    by_cases hc : cnt b < cnt a
    · rw [if_pos hc]
    · rw [if_neg hc]
      exact (List.Perm.cons b ih).trans (List.Perm.swap a b bs)

lemma sort_by_count_perm_aux (cnt : Rgb → Nat) :
    ∀ (l acc : List Rgb),
      (l.foldl (fun acc a => insert_by_count cnt a acc) acc).Perm (l ++ acc) := by
  intro l
  induction l with
  | nil => intro acc; exact List.Perm.refl _
  | cons a t ih =>
    intro acc
    have h1 := ih (insert_by_count cnt a acc)
    have h2 : (t ++ insert_by_count cnt a acc).Perm (t ++ a :: acc) :=
      List.Perm.append_left t (insert_by_count_perm cnt a acc)
    have h3 : (a :: (t ++ acc)).Perm (t ++ a :: acc) := List.perm_middle.symm
    exact ((h1.trans h2).trans h3.symm)

lemma sort_by_count_perm (cnt : Rgb → Nat) (l : List Rgb) :
    (sort_by_count cnt l).Perm l := by
  have h := sort_by_count_perm_aux cnt l []
  rw [List.append_nil] at h
  exact h

lemma insert_by_count_pairwise (cnt : Rgb → Nat) (a : Rgb) :
    ∀ l : List Rgb, l.Pairwise (fun x y => cnt y ≤ cnt x) →
      (insert_by_count cnt a l).Pairwise (fun x y => cnt y ≤ cnt x) := by
  intro l
  induction l with
  | nil => intro _; simp [insert_by_count]
  | cons b bs ih =>
    intro hp
    rw [List.pairwise_cons] at hp
    unfold insert_by_count
    by_cases hc : cnt b < cnt a
    · rw [if_pos hc]
      rw [List.pairwise_cons]
      refine ⟨?_, List.pairwise_cons.mpr hp⟩
      intro x hx
      rcases List.mem_cons.mp hx with rfl | hx
      · omega
      · have := hp.1 x hx
        omega
    · rw [if_neg hc]
      rw [List.pairwise_cons]
      refine ⟨?_, ih hp.2⟩
      intro x hx
      rcases (mem_insert_by_count cnt a x bs).mp hx with rfl | hx
      · omega
      · exact hp.1 x hx

lemma sort_by_count_pairwise_aux (cnt : Rgb → Nat) :
    ∀ (l acc : List Rgb), acc.Pairwise (fun x y => cnt y ≤ cnt x) →
      (l.foldl (fun acc a => insert_by_count cnt a acc) acc).Pairwise
        (fun x y => cnt y ≤ cnt x) := by
  intro l
  induction l with
  | nil => intro acc h; exact h
  | cons a t ih =>
    intro acc h
    exact ih _ (insert_by_count_pairwise cnt a acc h)

lemma sort_by_count_pairwise (cnt : Rgb → Nat) (l : List Rgb) :
    (sort_by_count cnt l).Pairwise (fun x y => cnt y ≤ cnt x) :=
  sort_by_count_pairwise_aux cnt l [] (List.Pairwise.nil)

lemma insert_by_count_filter (cnt : Rgb → Nat) (a : Rgb) (n : Nat) :
    ∀ l : List Rgb, l.Pairwise (fun x y => cnt y ≤ cnt x) →
      (insert_by_count cnt a l).filter (fun x => cnt x == n) =
        l.filter (fun x => cnt x == n) ++
          (if cnt a = n then [a] else []) := by
  intro l
  induction l with
  | nil =>
    intro _
    by_cases ha : cnt a = n
    · simp [insert_by_count, List.filter_cons, ha]
    · simp [insert_by_count, List.filter_cons, ha]
  | cons b bs ih =>
    intro hp
    rw [List.pairwise_cons] at hp
    unfold insert_by_count
    by_cases hc : cnt b < cnt a
    · rw [if_pos hc]
      by_cases ha : cnt a = n
      · have hnil : (b :: bs).filter (fun x => cnt x == n) = [] := by
          rw [List.filter_eq_nil_iff]
          intro x hx
          have hxle : cnt x ≤ cnt b := by
            rcases List.mem_cons.mp hx with rfl | hx
            · exact Nat.le_refl _
            · exact hp.1 x hx
          simp only [beq_iff_eq]
          omega
        rw [hnil]
        simp [List.filter_cons, ha, hnil]
      · simp [List.filter_cons, ha]
    · rw [if_neg hc]
      rw [List.filter_cons, List.filter_cons, ih hp.2]
      by_cases hb : cnt b = n
      · simp [hb, List.cons_append]
      · simp [hb]

lemma sort_by_count_filter_aux (cnt : Rgb → Nat) (n : Nat) :
    ∀ (l acc : List Rgb), acc.Pairwise (fun x y => cnt y ≤ cnt x) →
      (l.foldl (fun acc a => insert_by_count cnt a acc) acc).filter
          (fun x => cnt x == n) =
        acc.filter (fun x => cnt x == n) ++ l.filter (fun x => cnt x == n) := by
  intro l
  induction l with
  | nil => intro acc _; simp
  | cons a t ih =>
    intro acc h
    have h1 := ih (insert_by_count cnt a acc) (insert_by_count_pairwise cnt a acc h)
    rw [List.foldl_cons, h1, insert_by_count_filter cnt a n acc h,
      List.filter_cons, List.append_assoc]
    by_cases ha : cnt a = n
    · simp [ha]
    · simp [ha]

lemma sort_by_count_filter (cnt : Rgb → Nat) (n : Nat) (l : List Rgb) :
    (sort_by_count cnt l).filter (fun x => cnt x == n) =
      l.filter (fun x => cnt x == n) := by
  have h := sort_by_count_filter_aux cnt n l [] List.Pairwise.nil
  unfold sort_by_count
  rw [h]
  simp

lemma mem_first_seen_aux (x : Rgb) :
    ∀ (l acc : List Rgb),
      (x ∈ l.foldl (fun acc a => if a ∈ acc then acc else acc ++ [a]) acc ↔
        x ∈ acc ∨ x ∈ l) := by
  intro l
  induction l with
  | nil => intro acc; simp
  | cons a t ih =>
    intro acc
    rw [List.foldl_cons]
    by_cases hm : a ∈ acc
    · rw [if_pos hm, ih]
      constructor
      · rintro (h | h)
        · exact .inl h
        · exact .inr (List.mem_cons_of_mem a h)
      · rintro (h | h)
        · exact .inl h
        · rcases List.mem_cons.mp h with rfl | h
          · exact .inl hm
          · exact .inr h
    · rw [if_neg hm, ih]
      simp only [List.mem_append, List.mem_singleton, List.mem_cons]
      tauto

lemma mem_first_seen (x : Rgb) (l : List Rgb) : x ∈ first_seen l ↔ x ∈ l := by
  have h := mem_first_seen_aux x l []
  simpa [first_seen] using h

lemma nodup_first_seen_aux :
    ∀ (l acc : List Rgb), acc.Nodup →
      (l.foldl (fun acc a => if a ∈ acc then acc else acc ++ [a]) acc).Nodup := by
  intro l
  induction l with
  | nil => intro acc h; exact h
  | cons a t ih =>
    intro acc h
    rw [List.foldl_cons]
    by_cases hm : a ∈ acc
    · rw [if_pos hm]; exact ih acc h
    · rw [if_neg hm]
      refine ih (acc ++ [a]) ?_
      rw [List.nodup_append]
      exact ⟨h, List.nodup_singleton a, by simpa using hm⟩

lemma nodup_first_seen (l : List Rgb) : (first_seen l).Nodup :=
  nodup_first_seen_aux l [] List.Pairwise.nil

lemma most_common_spec (l : List Rgb) (k : Nat) :
    (most_common l k).length = min k (first_seen l).length ∧
    (∀ c ∈ most_common l k, c ∈ l) ∧
    (most_common l k).Nodup ∧
    (most_common l k).Pairwise (fun a b => l.count b ≤ l.count a) ∧
    (∀ c ∈ l, c ∉ most_common l k →
      ∀ s ∈ most_common l k, l.count c ≤ l.count s) ∧
    (∀ n, ∃ t, (first_seen l).filter (fun c => l.count c == n) =
      (most_common l k).filter (fun c => l.count c == n) ++ t) := by
  have hperm : (sort_by_count (fun a => l.count a) (first_seen l)).Perm
      (first_seen l) := sort_by_count_perm _ _
  have hpair := sort_by_count_pairwise (fun a => l.count a) (first_seen l)
  have hmc : most_common l k =
      (sort_by_count (fun a => l.count a) (first_seen l)).take k := rfl
  refine ⟨?_, ?_, ?_, ?_, ?_, ?_⟩
  · rw [hmc, List.length_take, hperm.length_eq]
  · intro c hc
    rw [hmc] at hc
    exact (mem_first_seen c l).mp (hperm.mem_iff.mp (List.mem_of_mem_take hc))
  · rw [hmc]
    exact List.Nodup.sublist (List.take_sublist k _)
      (hperm.nodup_iff.mpr (nodup_first_seen l))
  · rw [hmc]
    exact List.Pairwise.sublist (List.take_sublist k _) hpair
  · intro c hcl hcnot s hs
    have hcs : c ∈ sort_by_count (fun a => l.count a) (first_seen l) :=
      hperm.mem_iff.mpr ((mem_first_seen c l).mpr hcl)
    rw [← List.take_append_drop k
      (sort_by_count (fun a => l.count a) (first_seen l))] at hcs hpair
    rcases List.mem_append.mp hcs with hcs | hcs
    · exact absurd (hmc ▸ hcs) hcnot
    · exact (List.pairwise_append.mp hpair).2.2 s (hmc ▸ hs) c hcs
  · intro n
    refine ⟨((sort_by_count (fun a => l.count a) (first_seen l)).drop k).filter
      (fun c => l.count c == n), ?_⟩
    rw [hmc, ← List.filter_append, List.take_append_drop]
    exact (sort_by_count_filter (fun a => l.count a) n (first_seen l)).symm

/-- C7.  Seed selection: for a positive-size image the border sampler
collects the RGB triples at every 16th position along the top, bottom, left
and right edges (`border_scan`, stated from the specification), and
`most_common` returns the `k` most frequent distinct triples — members of
the scan, counts in descending order, every omitted triple's frequency at
most every selected one's, and, for every frequency value, the selected
triples of that frequency forming a prefix of the scan's distinct triples
of that frequency in first-appearance order. -/
theorem c7_seed_selection (img : PngImage) (k : Nat)
    (hw : 0 < img.width) (hh : 0 < img.height)
    (hlen : img.rgba.length = img.width * img.height * 4) :
    sample_border_colors img 16 = some (border_scan img 16) ∧
    (most_common (border_scan img 16) k).length =
      min k (first_seen (border_scan img 16)).length ∧
    (∀ c ∈ most_common (border_scan img 16) k, c ∈ border_scan img 16) ∧
    (most_common (border_scan img 16) k).Nodup ∧
    (most_common (border_scan img 16) k).Pairwise
      (fun a b => (border_scan img 16).count b ≤ (border_scan img 16).count a) ∧
    (∀ c ∈ border_scan img 16, c ∉ most_common (border_scan img 16) k →
      ∀ s ∈ most_common (border_scan img 16) k,
        (border_scan img 16).count c ≤ (border_scan img 16).count s) ∧
    (∀ n, ∃ t, (first_seen (border_scan img 16)).filter
        (fun c => (border_scan img 16).count c == n) =
      (most_common (border_scan img 16) k).filter
        (fun c => (border_scan img 16).count c == n) ++ t) := by
  obtain ⟨h1, h2, h3, h4, h5, h6⟩ := most_common_spec (border_scan img 16) k
  exact ⟨sample_eq_border_scan img hw hh hlen, h1, h2, h3, h4, h5, h6⟩

/-- Witness for C7 at a 1x1 image. -/
theorem c7_seed_selection_witness :
    sample_border_colors ⟨1, 1, [9, 9, 9, 7]⟩ 16 =
      some (border_scan ⟨1, 1, [9, 9, 9, 7]⟩ 16) ∧
    (most_common (border_scan ⟨1, 1, [9, 9, 9, 7]⟩ 16) 2).length =
      min 2 (first_seen (border_scan ⟨1, 1, [9, 9, 9, 7]⟩ 16)).length ∧
    (∀ c ∈ most_common (border_scan ⟨1, 1, [9, 9, 9, 7]⟩ 16) 2,
      c ∈ border_scan ⟨1, 1, [9, 9, 9, 7]⟩ 16) ∧
    (most_common (border_scan ⟨1, 1, [9, 9, 9, 7]⟩ 16) 2).Nodup ∧
    (most_common (border_scan ⟨1, 1, [9, 9, 9, 7]⟩ 16) 2).Pairwise
      (fun a b => (border_scan ⟨1, 1, [9, 9, 9, 7]⟩ 16).count b ≤
        (border_scan ⟨1, 1, [9, 9, 9, 7]⟩ 16).count a) ∧
    (∀ c ∈ border_scan ⟨1, 1, [9, 9, 9, 7]⟩ 16,
      c ∉ most_common (border_scan ⟨1, 1, [9, 9, 9, 7]⟩ 16) 2 →
      ∀ s ∈ most_common (border_scan ⟨1, 1, [9, 9, 9, 7]⟩ 16) 2,
        (border_scan ⟨1, 1, [9, 9, 9, 7]⟩ 16).count c ≤
          (border_scan ⟨1, 1, [9, 9, 9, 7]⟩ 16).count s) ∧
    (∀ n, ∃ t, (first_seen (border_scan ⟨1, 1, [9, 9, 9, 7]⟩ 16)).filter
        (fun c => (border_scan ⟨1, 1, [9, 9, 9, 7]⟩ 16).count c == n) =
      (most_common (border_scan ⟨1, 1, [9, 9, 9, 7]⟩ 16) 2).filter
        (fun c => (border_scan ⟨1, 1, [9, 9, 9, 7]⟩ 16).count c == n) ++ t) :=
  c7_seed_selection ⟨1, 1, [9, 9, 9, 7]⟩ 2 (by decide) (by decide) (by decide)

lemma unfilter_bytes_ok_inv (filt bpp rowBytes y : Nat) (src : List Nat) :
    ∀ (rem x : Nat) (out res : List Nat),
      unfilter_bytes filt bpp rowBytes y src rem x out = .ok res →
      res.length = out.length + rem ∧ ∀ b ∈ res, b ∈ out ∨ b < 256 := by
  intro rem
  induction rem with
  | zero =>
    intro x out res h
    cases h
    exact ⟨by simp, fun b hb => .inl hb⟩
  | succ n ih =>
    intro x out res h
    unfold unfilter_bytes at h
    dsimp only at h
    split at h
    all_goals first
      | exact Except.noConfusion h
      | (obtain ⟨hlen, hmem⟩ := ih _ _ _ h
         constructor
         · rw [hlen, List.length_append, List.length_singleton]
           omega
         · intro b hb
           rcases hmem b hb with hb2 | hb2
           · rcases List.mem_append.mp hb2 with hb3 | hb3
             · exact .inl hb3
             · right
               rw [List.mem_singleton.mp hb3]
               exact Nat.mod_lt _ (by omega)
           · exact .inr hb2)

lemma unfilter_rows_ok_inv (raw : List Nat) (w bpp : Nat) :
    ∀ (rem y : Nat) (out res : List Nat),
      (y + rem) * (1 + w * bpp) ≤ raw.length →
      unfilter_rows raw w bpp rem y out = .ok res →
      res.length = out.length + rem * (w * bpp) ∧
      ∀ b ∈ res, b ∈ out ∨ b < 256 ∨ b ∈ raw := by
  intro rem
  induction rem with
  | zero =>
    intro y out res _ h
    cases h
    exact ⟨by simp, fun b hb => .inl hb⟩
  | succ n ih =>
    intro y out res hbound h
    have hglue : (y + 1 + n) * (1 + w * bpp) = (y + (n + 1)) * (1 + w * bpp) := by
      ring
    have hexp : (y + (n + 1)) * (1 + w * bpp) =
        y * (1 + w * bpp) + (1 + w * bpp) + n * (1 + w * bpp) := by
      ring
    have hsucc : (n + 1) * (w * bpp) = w * bpp + n * (w * bpp) := by
      ring
    unfold unfilter_rows at h
    dsimp only at h
    split at h
    · obtain ⟨hlen, hmem⟩ := ih (y + 1) _ res (by rw [hglue]; exact hbound) h
      have hsrc : ((raw.drop (y * (1 + w * bpp) + 1)).take (w * bpp)).length
          = w * bpp := by
        rw [List.length_take, List.length_drop]
        omega
      constructor
      · rw [hlen, List.length_append, hsrc]
        omega
      · intro b hb
        rcases hmem b hb with hb2 | hb2 | hb2
        · rcases List.mem_append.mp hb2 with hb3 | hb3
          · exact .inl hb3
          · exact .inr (.inr (List.mem_of_mem_drop (List.mem_of_mem_take hb3)))
        · exact .inr (.inl hb2)
        · exact .inr (.inr hb2)
    · split at h
      · rename_i out2 heq
        obtain ⟨hlen2, hmem2⟩ := unfilter_bytes_ok_inv _ _ _ _ _ _ _ _ _ heq
        obtain ⟨hlen, hmem⟩ := ih (y + 1) out2 res (by rw [hglue]; exact hbound) h
        constructor
        · rw [hlen, hlen2]
          omega
        · intro b hb
          rcases hmem b hb with hb2 | hb2 | hb2
          · rcases hmem2 b hb2 with hb3 | hb3
            · exact .inl hb3
            · exact .inr (.inl hb3)
          · exact .inr (.inl hb2)
          · exact .inr (.inr hb2)
      · exact Except.noConfusion h

lemma unfilter_scanlines_ok_inv (raw : List Nat) (w h bpp : Nat)
    (res : List Nat) (hok : unfilter_scanlines raw w h bpp = .ok res) :
    res.length = h * (w * bpp) ∧ ∀ b ∈ res, b < 256 ∨ b ∈ raw := by
  unfold unfilter_scanlines at hok
  dsimp only at hok
  split at hok
  · exact Except.noConfusion hok
  · rename_i hrawlen
    have hg : (0 + h) * (1 + w * bpp) = h * (1 + w * bpp) := by
      ring
    obtain ⟨h1, h2⟩ := unfilter_rows_ok_inv raw w bpp h 0 [] res
      (by omega) hok
    constructor
    · rw [h1]
      simp
    · intro b hb
      rcases h2 b hb with hb2 | hb2 | hb2
      · exact absurd hb2 (List.not_mem_nil b)
      · exact .inl hb2
      · exact .inr hb2

lemma expand_rgb_eq_flatten (pixels : List Nat) (n : Nat) :
    expand_rgb pixels n = ((List.range n).map (fun i =>
      [pixels.getD (i * 3) 0, pixels.getD (i * 3 + 1) 0,
        pixels.getD (i * 3 + 2) 0, 255])).flatten := by
  unfold expand_rgb
  rw [foldl_append_eq_flatten]
  rfl

lemma expand_rgb_length (pixels : List Nat) (n : Nat) :
    (expand_rgb pixels n).length = n * 4 := by
  have hall : ∀ r ∈ (List.range n).map (fun i =>
      [pixels.getD (i * 3) 0, pixels.getD (i * 3 + 1) 0,
        pixels.getD (i * 3 + 2) 0, (255 : Nat)]), r.length = 4 := by
    intro r hr
    obtain ⟨i, _, rfl⟩ := List.mem_map.mp hr
    rfl
  rw [expand_rgb_eq_flatten, List.length_flatten,
    sum_map_length_const 4 _ hall, List.length_map, List.length_range]

lemma expand_rgb_mem (pixels : List Nat) (n : Nat) (b : Nat)
    (hb : b ∈ expand_rgb pixels n) : b = 255 ∨ ∃ j, b = pixels.getD j 0 := by
  rw [expand_rgb_eq_flatten, List.mem_flatten] at hb
  obtain ⟨l, hl, hbl⟩ := hb
  obtain ⟨i, _, rfl⟩ := List.mem_map.mp hl
  simp only [List.mem_cons, List.not_mem_nil, or_false] at hbl
  rcases hbl with rfl | rfl | rfl | rfl
  · exact .inr ⟨i * 3, rfl⟩
  · exact .inr ⟨i * 3 + 1, rfl⟩
  · exact .inr ⟨i * 3 + 2, rfl⟩
  · exact .inl rfl

lemma getD_lt_of_all (l : List Nat) (j : Nat) (hall : ∀ b ∈ l, b < 256) :
    l.getD j 0 < 256 := by
  rcases lt_or_ge j l.length with hj | hj
  · rw [List.getD_eq_getElem l 0 hj]
    exact hall _ (List.getElem_mem hj)
  · rw [List.getD_eq_default l 0 hj]
    omega

lemma mem_eq_getD (l : List Nat) (b : Nat) (hb : b ∈ l) :
    ∃ j, j < l.length ∧ b = l.getD j 0 := by
  obtain ⟨j, hj, rfl⟩ := List.mem_iff_getElem.mp hb
  exact ⟨j, hj, (List.getD_eq_getElem l 0 hj).symm⟩

/-- C9.  Buffer invariant: an image decoded by `read_png` (for a
decompressor producing byte values) has an RGBA buffer of length exactly
`width * height * 4` whose entries are all bytes, and
`background_to_alpha_floodfill` preserves that invariant. -/
theorem c9_buffer_invariant :
    (∀ (decomp : List Nat → Option (List Nat)) (png : List Nat)
        (img : PngImage),
      (∀ s raw, decomp s = some raw → ∀ b ∈ raw, b < 256) →
      read_png decomp png = .ok img →
      img.rgba.length = img.width * img.height * 4 ∧
        ∀ b ∈ img.rgba, b < 256) ∧
    (∀ (img : PngImage) (tolerance k : Nat) (out : PngImage),
      img.rgba.length = img.width * img.height * 4 →
      (∀ b ∈ img.rgba, b < 256) →
      background_to_alpha_floodfill img tolerance k = some out →
      out.rgba.length = out.width * out.height * 4 ∧
        ∀ b ∈ out.rgba, b < 256) := by
  constructor
  · intro decomp png img hdec hok
    unfold read_png at hok
    dsimp only at hok
    split at hok
    · exact Except.noConfusion hok
    · split at hok
      · exact Except.noConfusion hok
      · rename_i ihdrC hlast
        split at hok
        · split at hok
          · exact Except.noConfusion hok
          · split at hok
            · exact Except.noConfusion hok
            · split at hok
              · exact Except.noConfusion hok
              · split at hok
                · rename_i hct
                  split at hok
                  · exact Except.noConfusion hok
                  · rename_i raw hdecomp
                    split at hok
                    · exact Except.noConfusion hok
                    · exact Except.noConfusion hok
                    · rename_i pixels hunf
                      obtain ⟨hplen, hpmem⟩ :=
                        unfilter_scanlines_ok_inv _ _ _ _ _ hunf
                      have hraw256 : ∀ b ∈ raw, b < 256 := hdec _ raw hdecomp
                      have hpix256 : ∀ b ∈ pixels, b < 256 := by
                        intro b hb
                        rcases hpmem b hb with h | h
                        · exact h
                        · exact hraw256 b h
                      split at hok
                      · rename_i hct2
                        have himg := Except.ok.inj hok
                        subst himg
                        constructor
                        · show (expand_rgb pixels
                              (read_be32 ihdrC.2 0 * read_be32 ihdrC.2 4)).length =
                            read_be32 ihdrC.2 0 * read_be32 ihdrC.2 4 * 4
                          exact expand_rgb_length pixels _
                        · intro b hb
                          have hb2 : b ∈ expand_rgb pixels
                              (read_be32 ihdrC.2 0 * read_be32 ihdrC.2 4) := hb
                          rcases expand_rgb_mem _ _ b hb2 with rfl | ⟨j, hbj⟩
                          · omega
                          · rw [hbj]
                            exact getD_lt_of_all pixels j hpix256
                      · rename_i hct2n
                        have himg := Except.ok.inj hok
                        subst himg
                        refine ⟨?_, fun b hb => hpix256 b hb⟩
                        show pixels.length =
                          read_be32 ihdrC.2 0 * read_be32 ihdrC.2 4 * 4
                        rw [if_neg hct2n] at hplen
                        rw [hplen]
                        ring
                · exact Except.noConfusion hok
        · exact Except.noConfusion hok
  · intro img tolerance k out hlen hbytes hsome
    obtain ⟨h1, h2, h3, h4, h5⟩ := bg2a_some_facts img tolerance k out hlen hsome
    constructor
    · rw [h3, hlen, h1, h2]
    · intro b hb
      obtain ⟨j, hj, rfl⟩ := mem_eq_getD out.rgba b hb
      by_cases h34 : j % 4 = 3
      · rcases h5 j h34 with hcase | hcase
        · rw [hcase]
          exact getD_lt_of_all img.rgba j hbytes
        · rw [hcase.1]
          omega
      · rw [h4 j h34]
        exact getD_lt_of_all img.rgba j hbytes

/-- Witness for C9: a decoded 0x1 RGBA image and a cleaned 1x1 image. -/
theorem c9_buffer_invariant_witness :
    read_png (fun _ => some [0])
        (write_png_rgba (fun _ => 0) (fun _ => []) ⟨0, 1, []⟩) =
      .ok ⟨0, 1, []⟩ ∧
    (([] : List Nat).length = 0 * 1 * 4 ∧ ∀ b ∈ ([] : List Nat), b < 256) ∧
    background_to_alpha_floodfill ⟨1, 1, [9, 9, 9, 7]⟩ 28 2 =
      some ⟨1, 1, [9, 9, 9, 0]⟩ ∧
    (([9, 9, 9, 0] : List Nat).length = 1 * 1 * 4 ∧
      ∀ b ∈ ([9, 9, 9, 0] : List Nat), b < 256) := by
  have hok : read_png (fun _ => some [0])
      (write_png_rgba (fun _ => 0) (fun _ => []) ⟨0, 1, []⟩) =
      .ok ⟨0, 1, []⟩ := by rfl
  have hdec : ∀ s raw, (fun _ : List Nat => some [0]) s = some raw →
      ∀ b ∈ raw, b < 256 := by
    intro s raw h b hb
    cases h
    simp only [List.mem_singleton] at hb
    omega
  have hsome : background_to_alpha_floodfill ⟨1, 1, [9, 9, 9, 7]⟩ 28 2 =
      some ⟨1, 1, [9, 9, 9, 0]⟩ := by decide
  exact ⟨hok, c9_buffer_invariant.1 (fun _ => some [0]) _ ⟨0, 1, []⟩ hdec hok,
    hsome,
    c9_buffer_invariant.2 ⟨1, 1, [9, 9, 9, 7]⟩ 28 2 ⟨1, 1, [9, 9, 9, 0]⟩
      (by decide) (by decide) hsome⟩
